import Mathlib

/-!
Verification development for the `de_laws_to_json` repository
(`process_de_laws.py`).  The Python program converts German-law XML
documents into structured JSON records.  This file gives a shallow
embedding of the core of `process_de_laws.py`:

* the recursive XML-to-dictionary conversion (`convert_xml_to_dict`),
* the law-key assignment with year stripping and collision renaming
  (lines 116-149 of the source),
* the norm/paragraph extraction state machine (lines 169-307),
* the per-file driver `process_file` and the batch fold over documents.

Python dictionaries are modelled as insertion-ordered association
lists, Python strings as Lean `String` (the documents of interest are
ASCII plus a few fixed non-word characters such as `§`, for which
Lean's character classifiers agree with Python's), exceptions as
`Except PyErr`, and the injected `tiktoken` token counter as an
abstract function parameter `tok : String → Nat`.
-/

/-- Python exception kinds that the embedded code can raise. -/
inductive PyErr where
  | typeError
  | keyError
  | attributeError
  | indexError
deriving Repr, DecidableEq

/-- The values produced by `convert_xml_to_dict`: strings, lists and
insertion-ordered dictionaries (a Python `dict` keyed by tag names). -/
inductive PyVal where
  | str (s : String)
  | list (xs : List PyVal)
  | dict (entries : List (String × PyVal))
deriving Repr

/-- Python truthiness for the values above: empty string, empty list
and empty dict are falsy. -/
def pyTruthy : PyVal → Bool
  | .str s => s ≠ ""
  | .list xs => !xs.isEmpty
  | .dict es => !es.isEmpty

/-! ### Python dictionaries as association lists

A Python `dict` preserves insertion order; assigning to an existing
key replaces the value in place, assigning a fresh key appends, and
`del` removes the binding. -/

section Dict

variable {κ : Type} {α : Type} [DecidableEq κ]

/-- `m[k]` / `m.get(k)`: the value bound to `k`, if any. -/
def dlookup : List (κ × α) → κ → Option α
  | [], _ => none
  | (k', v) :: t, k => if k' = k then some v else dlookup t k

/-- `k in m`. -/
def dmem (m : List (κ × α)) (k : κ) : Bool :=
  (dlookup m k).isSome

/-- `m[k] = v`: replace in place if `k` is present, else append. -/
def dinsert : List (κ × α) → κ → α → List (κ × α)
  | [], k, v => [(k, v)]
  | (k', v') :: t, k, v =>
    if k' = k then (k, v) :: t else (k', v') :: dinsert t k v

/-- `del m[k]`. -/
def ddelete : List (κ × α) → κ → List (κ × α)
  | [], _ => []
  | (k', v') :: t, k =>
    if k' = k then ddelete t k else (k', v') :: ddelete t k

end Dict

/-! ### Python string primitives

`s[-4:]`, `s[:-4]`, `.strip()`, `.isdigit()`, `.split()` and the three
regular expressions of the source, implemented over `List Char`. -/

/-- Python slice `s[-4:]`: the last four characters, or all of `s`
when it is shorter than four characters. -/
def pyTail4 (s : String) : String :=
  ⟨s.data.drop (s.data.length - 4)⟩

/-- Python slice `s[:-4]`: everything but the last four characters
(empty when `s` has at most four characters). -/
def pyDropTail4 (s : String) : String :=
  ⟨s.data.take (s.data.length - 4)⟩

/-- Python `str.isdigit` (restricted to ASCII digits): nonempty and
all digits. -/
def pyIsdigit (s : String) : Bool :=
  !s.data.isEmpty && s.data.all Char.isDigit

/-- Python `str.strip()`: remove whitespace from both ends. -/
def pyStrip (s : String) : String :=
  ⟨(((s.data.dropWhile Char.isWhitespace).reverse.dropWhile Char.isWhitespace).reverse)⟩

/-- Helper for `pySplitWs`: scan the characters, accumulating the
current word (in reverse) and emitting it at whitespace and at the
end. -/
def splitWsGo : List Char → List Char → List String
  | [], acc => if acc.isEmpty then [] else [⟨acc.reverse⟩]
  | c :: cs, acc =>
    if c.isWhitespace then
      (if acc.isEmpty then [] else [⟨acc.reverse⟩]) ++ splitWsGo cs []
    else splitWsGo cs (c :: acc)

/-- Python `str.split()` (no argument): split on whitespace runs,
discarding empty pieces. -/
def pySplitWs (s : String) : List String :=
  splitWsGo s.data []

/-- A `\w` word character (ASCII view): letter, digit or underscore. -/
def isWordChar (c : Char) : Bool :=
  c.isAlphanum || c = '_'

/-- `re.sub(r'\W+', '', s)`: drop every non-word character. -/
def keepWordChars (s : String) : String :=
  ⟨s.data.filter isWordChar⟩

/-- Whether a word boundary `\b` holds at a position whose preceding
character is `prev` (`none` at the start of the string). -/
def boundaryOk : Option Char → Bool
  | none => true
  | some c => !isWordChar c

/-- `re.search(r"\b\d+[a-zA-Z]?\b", w)` specialised to this pattern:
scan left to right for a word boundary followed by a maximal digit
run, optionally one ASCII letter, and a closing word boundary; return
the matched text.  (Shrinking the greedy `\d+` can never help here,
because the character after a shortened digit run is again a digit and
hence never a boundary, so only the maximal run is tried.) -/
def searchNumberFrom : Option Char → List Char → Option String
  | _, [] => none
  | prev, c :: cs =>
    if boundaryOk prev && c.isDigit then
      let ds := c :: cs.takeWhile Char.isDigit
      let rest := cs.dropWhile Char.isDigit
      match rest with
      | [] => some ⟨ds⟩
      | r :: rs =>
        if r.isAlpha then
          match rs with
          | [] => some ⟨ds ++ [r]⟩
          | r2 :: _ =>
            if !isWordChar r2 then some ⟨ds ++ [r]⟩
            else searchNumberFrom (some c) cs
        else if !isWordChar r then some ⟨ds⟩
        else searchNumberFrom (some c) cs
    else searchNumberFrom (some c) cs

/-- `re.search(r"\b\d+[a-zA-Z]?\b", w)` on a string. -/
def searchNumber (w : String) : Option String :=
  searchNumberFrom none w.data

/-- `re.match('^\d+$', s)`: nonempty, all digits; as in Python, `$`
also matches just before one trailing newline. -/
def pyFullMatchDigits (s : String) : Bool :=
  let cs := if s.data.getLast? = some '\n' then s.data.dropLast else s.data
  !cs.isEmpty && cs.all Char.isDigit

/-- Python `int(s)` on a decimal digit string. -/
def pyToNat (s : String) : Nat :=
  s.data.foldl (fun a c => a * 10 + (c.toNat - 48)) 0

/-- `re.match(r'(§+|Art|Artikel)\.?\s*', s)`: anchored prefix match.
The alternation tries `§+` (one or more `§`), then `Art`, then
`Artikel`; the optional dot and `\s*` always succeed afterwards, so
the whole match succeeds exactly when the alternation matches a
prefix.  (`Art` is tried before `Artikel` and already succeeds on any
string that `Artikel` would accept.) -/
def matchNormPattern (s : String) : Bool :=
  match s.data with
  | '§' :: _ => true
  | 'A' :: 'r' :: 't' :: _ => true
  | _ => false

/-- The left-to-right, non-overlapping substitution
`re.sub(r"\n\s+\n", "\n\n", s)`.  At a `\n`, the greedy `\s+` followed
by a mandatory `\n` matches exactly when the maximal whitespace run
after the `\n` contains a later `\n` at offset at least 1; greediness
picks the last such `\n`.  Scanning resumes after the match. -/
def subNlWsNlFuel : Nat → List Char → List Char
  | 0, cs => cs
  | _ + 1, [] => []
  | fuel + 1, c :: cs =>
    if c = '\n' then
      let run := cs.takeWhile Char.isWhitespace
      match (List.range run.length).filter
          (fun i => decide (1 ≤ i) && (run.get? i = some '\n')) |>.getLast? with
      | some i => '\n' :: '\n' :: subNlWsNlFuel fuel (cs.drop (i + 1))
      | none => c :: subNlWsNlFuel fuel cs
    else c :: subNlWsNlFuel fuel cs

/-- See `subNlWsNlFuel`: the fuel `cs.length` can never run out,
because every recursive call both consumes at least one character and
passes a suffix of the remaining input. -/
def subNlWsNl (cs : List Char) : List Char :=
  subNlWsNlFuel cs.length cs

/-- `re.sub(r"\n\s+\n", "\n\n", s)` on a string (the source's
`whitespace_pattern` cleanup of paragraph content). -/
def pySubWhitespace (s : String) : String :=
  ⟨subNlWsNl s.data⟩

/-! ### The XML tree and the BeautifulSoup operations used

`XNode` models a parsed XML tree: element nodes with a tag name,
attributes and ordered children, and navigable-string nodes. -/

inductive XNode where
  | text (s : String)
  | elem (tag : String) (attrs : List (String × String)) (children : List XNode)

mutual
/-- Python `==` on the values of `convert_xml_to_dict`. -/
def pyEq : PyVal → PyVal → Bool
  | .str a, .str b => a = b
  | .list a, .list b => pyEqList a b
  | .dict a, .dict b => pyEqDict a b
  | _, _ => false
def pyEqList : List PyVal → List PyVal → Bool
  | [], [] => true
  | a :: as', b :: bs => pyEq a b && pyEqList as' bs
  | _, _ => false
def pyEqDict : List (String × PyVal) → List (String × PyVal) → Bool
  | [], [] => true
  | (k, a) :: as', (k', b) :: bs => k = k' && pyEq a b && pyEqDict as' bs
  | _, _ => false
end

mutual
/-- All descendant strings of a node, in document order
(BeautifulSoup's `.strings`). -/
def xstrings : XNode → List String
  | .text s => [s]
  | .elem _ _ cs => xstringsList cs
def xstringsList : List XNode → List String
  | [] => []
  | c :: cs => xstrings c ++ xstringsList cs
end

/-- BeautifulSoup `.text` / `get_text()`: concatenation of all
descendant strings. -/
def xtext (n : XNode) : String :=
  String.join (xstrings n)

/-- BeautifulSoup `get_text(" ", strip=True)`: strip each descendant
string, drop the ones that become empty, join with single spaces. -/
def xtextStripJoin (n : XNode) : String :=
  String.intercalate " " (((xstrings n).map pyStrip).filter (fun t => t ≠ ""))

/-- BeautifulSoup `.string`: a text node is its own string; a tag with
exactly one child has its child's string; anything else has none. -/
def xstring : XNode → Option String
  | .text s => some s
  | .elem _ _ [c] => xstring c
  | .elem _ _ _ => none

mutual
/-- Remove every descendant tag satisfying `p` (the effect of
`for tag in node.find_all(p): tag.decompose()`, and likewise of
`.extract()` on each match).  The root itself is never tested, and
text nodes are never removed. -/
def stripTags (p : XNode → Bool) : XNode → XNode
  | .text s => .text s
  | .elem t a cs => .elem t a (stripTagsList p cs)
def stripTagsList (p : XNode → Bool) : List XNode → List XNode
  | [] => []
  | c :: cs =>
    match c with
    | .text s => XNode.text s :: stripTagsList p cs
    | .elem t a cs' =>
      if p (.elem t a cs') then stripTagsList p cs
      else stripTags p (.elem t a cs') :: stripTagsList p cs
end

mutual
/-- `node.find_all(name)`: all descendant tags with the given name,
in document order (the node itself is not included). -/
def findAllTag (nm : String) : XNode → List XNode
  | .text _ => []
  | .elem _ _ cs => findAllTagList nm cs
def findAllTagList (nm : String) : List XNode → List XNode
  | [] => []
  | c :: cs =>
    (match c with
     | .text _ => []
     | .elem t a cs' =>
       (if t = nm then [XNode.elem t a cs'] else []) ++ findAllTag nm (.elem t a cs'))
    ++ findAllTagList nm cs
end

/-- `node.find(name)` / attribute access `node.name`: the first
descendant tag with the given name, if any. -/
def findTag (nm : String) (n : XNode) : Option XNode :=
  (findAllTag nm n).head?

/-- `node.find_all(name, recursive=False)`: direct children only. -/
def childrenNamed (nm : String) : XNode → List XNode
  | .text _ => []
  | .elem _ _ cs => cs.filter (fun c => match c with
      | .elem t _ _ => t = nm
      | .text _ => false)

/-- Attribute lookup `tag.get(attr)`. -/
def attrGet (n : XNode) (a : String) : Option String :=
  match n with
  | .text _ => none
  | .elem _ attrs _ => dlookup attrs a

/-- The tag filter used before sniffing a leading paragraph number:
`['DL', 'Revision', lambda t: t.name == 'entry' and
t.get('colname') == 'col1']`. -/
def sniffStripPred (x : XNode) : Bool :=
  match x with
  | .elem t _ _ =>
    t = "DL" || t = "Revision" || (t = "entry" && attrGet x "colname" = some "col1")
  | .text _ => false

/-- The `SUP` filter (sentence-number markers removed from content). -/
def supPred (x : XNode) : Bool :=
  match x with
  | .elem t _ _ => t = "SUP"
  | .text _ => false

mutual
/-- `convert_xml_to_dict`: a node with a truthy `.string` becomes that
string; otherwise its named children are folded, in order, into a
dictionary, where a repeated tag name promotes the existing binding to
a list and appends.  (The `expected_type` check of the source can
never fire: the constructed value is always a dict, and the early
string return bypasses the check.  The source applies the conversion
only to tags; on a bare string node we return the string itself.) -/
def convertX : XNode → PyVal
  | .text s => .str s
  | .elem t a cs =>
    match xstring (.elem t a cs) with
    | some s =>
      if s ≠ "" then .str s else .dict (convertChildren cs [])
    | none => .dict (convertChildren cs [])
def convertChildren : List XNode → List (String × PyVal) → List (String × PyVal)
  | [], acc => acc
  | c :: cs, acc =>
    match c with
    | .text _ => convertChildren cs acc
    | .elem t a cs' =>
      let v := convertX (.elem t a cs')
      let acc' :=
        match dlookup acc t with
        | some (PyVal.list xs) => dinsert acc t (.list (xs ++ [v]))
        | some old => dinsert acc t (.list [old, v])
        | none => acc ++ [(t, v)]
      convertChildren cs acc'
end

/-! ### Norms and paragraphs (source lines 169-307) -/

/-- One extracted paragraph (`p_obj` of the source: `paragraph_id`,
`token`, normalized `content`). -/
structure Para where
  paragraph_id : String
  token : Nat
  content : String
deriving Repr, DecidableEq

/-- One extracted norm (`this_norm` of the source). -/
structure NormRec where
  norm_id : String
  title : String
  paragraphs : List Para
deriving Repr, DecidableEq

/-- The Python variable `number`, which holds either an `int` or a
`str` during block processing. -/
inductive PyNum where
  | int (n : Nat)
  | str (s : String)
deriving Repr, DecidableEq

/-- Python `str(number)`. -/
def PyNum.toStr : PyNum → String
  | .int n => toString n
  | .str s => s

/-- The leading-number collision repair (source lines 243-251): walk
the norm's paragraphs in order; at the first paragraph whose id equals
`str(number)`, increment a purely numeric id by one, otherwise append
an underscore, and stop (the loop `break`s without rechecking the
corrected id against the remaining paragraphs). -/
def fixDuplicateNumber : List Para → PyNum → PyNum
  | [], number => number
  | p :: rest, number =>
    let number := PyNum.str number.toStr
    if p.paragraph_id = number.toStr then
      if pyFullMatchDigits number.toStr then .int (pyToNat number.toStr + 1)
      else .str (number.toStr ++ "_")
    else fixDuplicateNumber rest number

/-- The continuation merge (source lines 277-282): walk the norm's
paragraphs in order; at the first paragraph whose id equals the target
id, add the new block's token count and append its content after a
space, and stop.  If no paragraph has the target id, the block is
silently dropped. -/
def appendToPara (idStr : String) (pObj : Para) : List Para → List Para
  | [] => []
  | p :: rest =>
    if p.paragraph_id = idStr then
      { p with token := p.token + pObj.token,
               content := p.content ++ " " ++ pObj.content } :: rest
    else p :: appendToPara idStr pObj rest

/-- The per-norm block-processing state: the positional counter
`p_i`, the `p_is_numbered` flag, the paragraphs collected so far for
the current norm, and the document-level `unprocessed_absatze` list. -/
structure BlockState where
  p_i : Nat
  p_is_numbered : Bool
  paragraphs : List Para
  unresolved : List String
deriving Repr, DecidableEq

/-- The tail of one `P` content block's processing (source lines
261-304), shared by all numbering branches: remove the `SUP` markers,
build `p_obj`, then either merge it into the paragraph whose id is
the positional target (a continuation) or run the final duplicate
check against the previously emitted norms and append or divert. -/
def finishP (tok : String → Nat) (filename key_process : String)
    (prevNorms : List NormRec) (normId : String) (st : BlockState) (P : XNode)
    (p_i : Nat) (number : PyNum) (number_missing : Bool) (p_is_numbered : Bool) :
    BlockState :=
  -- SUP markers are removed from the block itself before the token
  -- count and the content text are taken
  let P_nosup := stripTags supPred P
  let pObj : Para := {
    paragraph_id := number.toStr,
    token := tok (xtext P_nosup),
    content := pySubWhitespace (xtextStripJoin P_nosup) }
  if number_missing then
    { st with p_i := p_i, p_is_numbered := p_is_numbered,
              paragraphs := appendToPara number.toStr pObj st.paragraphs }
  else
    -- final duplicate check: scan the PREVIOUSLY emitted norms with
    -- the same norm_id for a paragraph with this id; each hit diverts
    -- the block to `unprocessed_absatze` instead of appending it
    let dupNorms := prevNorms.filter (fun n =>
      n.norm_id = normId && n.paragraphs.any (fun q => q.paragraph_id = pObj.paragraph_id))
    let newUnres := dupNorms.map (fun _ =>
      filename ++ " " ++ key_process ++ " " ++ normId ++ " " ++ number.toStr)
    { p_i := p_i, p_is_numbered := p_is_numbered,
      paragraphs := st.paragraphs ++ (if dupNorms.isEmpty then [pObj] else []),
      unresolved := st.unresolved ++ newUnres }

/-- Processing of one `P` content block (source lines 216-304), for a
norm with id `normId`, given the norms `prevNorms` already emitted for
this document (the source's `output['norms']`, which does NOT yet
contain the norm currently being built): sniff the leading token of a
deep copy with DL/Revision/first-column entries removed, decide the
paragraph number (`p_i` positional, extracted, collision-corrected, or
continuation target `p_i - 1`), and finish with `finishP`. -/
def processP (tok : String → Nat) (filename key_process : String)
    (prevNorms : List NormRec) (normId : String)
    (st : BlockState) (P : XNode) : BlockState :=
  let p_i := st.p_i + 1
  let P_copy := stripTags sniffStripPred P
  match pySplitWs (xtext P_copy) with
  | [] => finishP tok filename key_process prevNorms normId st P
      p_i (.int p_i) false st.p_is_numbered
  | first_part :: _ =>
    match searchNumber first_part with
    | some m =>
      -- a leading number: new paragraph, corrected on collision
      finishP tok filename key_process prevNorms normId st P
        p_i (fixDuplicateNumber st.paragraphs (.str (keepWordChars m))) false true
    | none =>
      if st.p_is_numbered then
        -- continuation of the paragraph with id p_i - 1
        finishP tok filename key_process prevNorms normId st P
          p_i (.int (p_i - 1)) true st.p_is_numbered
      else
        finishP tok filename key_process prevNorms normId st P
          p_i (.int p_i) false st.p_is_numbered

/-- The norm id with the structural grouping label (source lines
183-195): when the metadata has a truthy `gliederungseinheit` whose
`gliederungsbez` is truthy, prefix it to the designation.  A truthy
non-dict `gliederungseinheit` raises `AttributeError` on `.get`, and a
truthy non-string `gliederungsbez` raises `TypeError` on `+`. -/
def normIdStep (entries : List (String × PyVal)) (enbez : String) :
    Except PyErr String :=
  match dlookup entries "gliederungseinheit" with
  | some g =>
    if pyTruthy g then
      match g with
      | .dict ge =>
        match dlookup ge "gliederungsbez" with
        | some b =>
          if pyTruthy b then
            match b with
            | .str bs => .ok (bs ++ " " ++ enbez)
            | _ => .error .typeError
          else .ok enbez
        | none => .ok enbez
      | _ => .error .attributeError
    else .ok enbez
  | none => .ok enbez

/-- Processing of one `norm` node (source lines 169-307): skip it
unless its metadata is a dict with a truthy `enbez` matching the
§/Art pattern; otherwise build the norm id (with the structural
grouping label, when present), the title, and fold `processP` over the
direct `P` children of the `Content` node.  Returns the emitted norm
(if any) together with the `unprocessed_absatze` entries produced. -/
def processNormNode (tok : String → Nat) (filename key_process : String)
    (prevNorms : List NormRec) (law : XNode) :
    Except PyErr (Option NormRec × List String) :=
  match findTag "metadaten" law with
  | none => .error .attributeError  -- convert_xml_to_dict(None, dict)
  | some metaNode =>
    match convertX metaNode with
    | .dict entries =>
      match dlookup entries "enbez" with
      | some v =>
        if pyTruthy v then
          match v with
          | .str enbez =>
            if matchNormPattern enbez then
              let title := match findTag "titel" metaNode with
                | some t => xtext t
                | none => ""  -- AttributeError caught, title stays ''
              match normIdStep entries enbez with
              | .error e => .error e
              | .ok norm_id =>
                let content? :=
                  match findTag "textdaten" law with
                  | some td =>
                    match findTag "text" td with
                    | some tx => findTag "Content" tx
                    | none => none
                  | none => none
                let stFinal : BlockState :=
                  match content? with
                  | some content =>
                    (childrenNamed "P" content).foldl
                      (processP tok filename key_process prevNorms norm_id)
                      ⟨0, false, [], []⟩
                  | none => ⟨0, false, [], []⟩
                .ok (some ⟨norm_id, title, stFinal.paragraphs⟩, stFinal.unresolved)
            else .ok (none, [])
          | _ => .error .typeError  -- re.match on a non-string enbez
        else .ok (none, [])
      | none => .ok (none, [])
    | _ => .ok (none, [])  -- isinstance(this_metadaten, dict) is False

/-- The accumulated norm output of one document. -/
structure NormsOut where
  norms : List NormRec
  unresolved : List String
deriving Repr, DecidableEq

/-- Fold over all `norm` nodes of the document (`soup.find_all('norm')`),
accumulating emitted norms and `unprocessed_absatze`. -/
def processNormList (tok : String → Nat) (filename key_process : String) :
    List XNode → NormsOut → Except PyErr NormsOut
  | [], acc => .ok acc
  | law :: rest, acc =>
    match processNormNode tok filename key_process acc.norms law with
    | .error e => .error e
    | .ok (n?, us) =>
      processNormList tok filename key_process rest
        ⟨acc.norms ++ n?.toList, acc.unresolved ++ us⟩

/-- All norms of a document tree. -/
def processNorms (tok : String → Nat) (filename key_process : String)
    (tree : XNode) : Except PyErr NormsOut :=
  processNormList tok filename key_process (findAllTag "norm" tree) ⟨[], []⟩

/-! ### Key assignment and collision reconciliation (source lines 109-164) -/

/-- `remove_year_from_key` (source lines 121-124): if the last four
characters (Python slice `[-4:]`) form a nonempty all-digit string,
drop them (`[:-4]`) and strip whitespace; otherwise return the key
unchanged.  (The `isinstance(..., str)` test is always true on a
string argument.) -/
def remove_year_from_key (key_planned : String) : String :=
  if pyIsdigit (pyTail4 key_planned) then pyStrip (pyDropTail4 key_planned)
  else key_planned

/-- The `while isinstance(key_planned, list): key_planned =
key_planned[0]` loop: repeatedly take the first element; indexing an
empty list raises `IndexError`.  The result is never a list. -/
def unwrapListPy : PyVal → Except PyErr PyVal
  | .list [] => .error .indexError
  | .list (x :: _) => unwrapListPy x
  | v => .ok v

/-- `remove_year_from_key` as applied to an arbitrary `.get` result:
`None[-4:]` and slicing a dict raise `TypeError`; slicing a list
yields a list, which `isinstance(..., str)` rejects, so a list is
returned unchanged. -/
def removeYearPy : Option PyVal → Except PyErr PyVal
  | none => .error .typeError
  | some (.dict _) => .error .typeError
  | some (.list xs) => .ok (.list xs)
  | some (.str s) => .ok (.str (remove_year_from_key s))

/-- Keys of the Python dicts `all_laws` and `file_keys`.  A string or
`None` can be used as a dict key; lists and dicts are unhashable. -/
inductive DKey where
  | str (v : String)
  | pyNone
deriving Repr, DecidableEq

/-- The dict key denoted by a `.get` result when it is used as a
subscript: `None` is a valid key, lists and dicts raise `TypeError`. -/
def asDKey : Option PyVal → Except PyErr DKey
  | some (.str t) => .ok (.str t)
  | none => .ok .pyNone
  | some (.list _) => .error .typeError
  | some (.dict _) => .error .typeError

/-- Python `!=` between a `.get` result and a string: values of
different types always differ. -/
def pyNeStr (v : Option PyVal) (s : String) : Bool :=
  match v with
  | some (.str t) => t ≠ s
  | _ => true

/-- The apostrophe used by Python `repr` of a string. -/
def quoteCh : Char := Char.ofNat 39

mutual
/-- Python `repr` for the values above (string escaping is not
modelled; the keys this program prints contain no quotes). -/
def pyReprOf : PyVal → String
  | .str s => String.singleton quoteCh ++ s ++ String.singleton quoteCh
  | .list xs => "[" ++ String.intercalate ", " (pyReprList xs) ++ "]"
  | .dict es => "\x7b" ++ String.intercalate ", " (pyReprDict es) ++ "\x7d"
def pyReprList : List PyVal → List String
  | [] => []
  | v :: vs => pyReprOf v :: pyReprList vs
def pyReprDict : List (String × PyVal) → List String
  | [] => []
  | (k, v) :: es =>
    (String.singleton quoteCh ++ k ++ String.singleton quoteCh ++ ": " ++ pyReprOf v)
      :: pyReprDict es
end

/-- Python `str()` of a value: a string is itself, anything else is
its `repr`. -/
def pyStrOf : PyVal → String
  | .str s => s
  | v => pyReprOf v

/-- The `meta` block of one law record. -/
structure MetaRec where
  source : String
  download_date : String
  title : String
  last_changed : Option PyVal
  alt_title : String
deriving Repr

/-- One law record (the source's `output` dict: `meta`, `metadaten`,
`norms`). -/
structure Record where
  meta : MetaRec
  metadaten : PyVal
  norms : List NormRec
deriving Repr

/-- The cross-document mutable state: `all_laws` (key → record) and
`file_keys` (key → source filename). -/
structure RegState where
  all_laws : List (DKey × Record)
  file_keys : List (DKey × String)
deriving Repr

/-- The empty registries at batch start. -/
def emptyState : RegState := ⟨[], []⟩

/-- One input document: its filename, its creation timestamp already
formatted as `%Y-%m-%d` (the `download_date`), and the parsed XML
tree. -/
structure Doc where
  filename : String
  ctime : String
  tree : XNode

/-- What `process_file` produces for one document: either the JSON
result object that is written for it (`key`, `output` record,
`unprocessed_absatze`), or nothing but a log line when no usable key
exists. -/
inductive FileResult where
  | written (key : String) (record : Record) (unresolved : List String)
  | skippedNoKey
deriving Repr

/-- The collision branch (source lines 133-148), entered when the
stripped or the unstripped key is already registered: look up the
prior record under the stripped key (`KeyError` if absent), re-derive
its own unstripped identifier, and if that differs from the stripped
key, move the prior entry to it in `all_laws` and then in `file_keys`
(a missing `file_keys` entry raises after `all_laws` was already
changed).  The current document then uses its unstripped key.
Returns the possibly mutated state and the key to use, or the raised
exception. -/
def collisionStep (st : RegState) (previous key_planned : String) :
    RegState × Except PyErr String :=
  match dlookup st.all_laws (.str previous) with
  | none => (st, .error .keyError)  -- all_laws[previous_output_key]
  | some prevRec =>
    match prevRec.metadaten with
    | .dict pentries =>
      let corrected : Option PyVal :=
        match dlookup pentries "jurabk" with
        | some v => some v
        | none => dlookup pentries "amtabk"
      if pyNeStr corrected previous then
        match asDKey corrected with
        | .error e => (st, .error e)  -- all_laws[corrected] = ... unhashable
        | .ok ck =>
          let laws' := ddelete (dinsert st.all_laws ck prevRec) (.str previous)
          match dlookup st.file_keys (.str previous) with
          | none => ({ st with all_laws := laws' }, .error .keyError)
          | some pfn =>
            let fks' := ddelete (dinsert st.file_keys ck pfn) (.str previous)
            (⟨laws', fks'⟩, .ok key_planned)
      else (st, .ok key_planned)
    | _ => (st, .error .attributeError)  -- .get on a non-dict metadaten

/-- The alternate-title computation (source lines 151-164): fetch
`jurabk` and `amtabk`, year-strip each truthy one, and when both are
truthy and differ, record as `alt_title` the one that is not the
planned key (as `str(...)`); otherwise `alt_title` stays empty. -/
def altTitleStep (entries : List (String × PyVal)) (key_planned : String) :
    Except PyErr String :=
  let step : Option PyVal → Except PyErr (Option PyVal) := fun v? =>
    match v? with
    | some v =>
      if pyTruthy v then
        match removeYearPy (some v) with
        | .error e => .error e
        | .ok v' => .ok (some v')
      else .ok (some v)
    | none => .ok none
  match step (dlookup entries "jurabk") with
  | .error e => .error e
  | .ok aj =>
    match step (dlookup entries "amtabk") with
    | .error e => .error e
    | .ok aa =>
      match aj, aa with
      | some ajv, some aav =>
        if pyTruthy ajv && pyTruthy aav && !pyEq ajv aav then
          if !pyEq ajv (.str key_planned) then .ok (pyStrOf ajv)
          else .ok (pyStrOf aav)
        else .ok ""
      | _, _ => .ok ""

/-- `process_file` (source lines 74-325) for one document against the
current registries.  Mutations happen in source order: the collision
branch may rename a prior entry, the working key is registered in
`file_keys` before the norms are extracted, and the record is stored
in `all_laws` only afterwards and only when the key is a nonempty
string.  An uncaught exception leaves the registries exactly as
mutated up to the point where it was raised.  The token counter `tok`
abstracts `num_tokens_from_string`. -/
def process_file (tok : String → Nat) (st : RegState) (d : Doc) :
    RegState × Except PyErr FileResult :=
  match findTag "metadaten" d.tree with
  | none => (st, .error .attributeError)  -- convert_xml_to_dict(None, dict)
  | some metaNode =>
    match convertX metaNode with
    | .dict entries =>
      -- output['meta']['last_changed'] and the title (lines 103-107)
      let last_changed := dlookup entries "ausfertigung-datum"
      let title := match findTag "langue" metaNode with
        | some t => xtext t
        | none => ""  -- AttributeError caught
      -- key_planned (lines 116-119)
      let kpRaw : Option PyVal :=
        match dlookup entries "jurabk" with
        | some v => some v
        | none => dlookup entries "amtabk"
      match kpRaw with
      | none => (st, .error .typeError)  -- remove_year_from_key(None): None[-4:]
      | some kv =>
        match unwrapListPy kv with
        | .error e => (st, .error e)
        | .ok kvu =>
          match kvu with
          | .str key_planned =>
            let key_process0 := remove_year_from_key key_planned
            let collided :=
              dmem st.file_keys (.str key_process0) || dmem st.file_keys (.str key_planned)
            match (if collided then collisionStep st key_process0 key_planned
                   else (st, .ok key_process0)) with
            | (st1, .error e) => (st1, .error e)
            | (st1, .ok key_process) =>
              -- file_keys[key_process] = filename (line 149)
              let st2 : RegState :=
                { st1 with file_keys := dinsert st1.file_keys (.str key_process) d.filename }
              match altTitleStep entries key_planned with
              | .error e => (st2, .error e)
              | .ok alt_title =>
                match processNorms tok d.filename key_process d.tree with
                | .error e => (st2, .error e)
                | .ok nout =>
                  let record : Record :=
                    { meta := { source := d.filename, download_date := d.ctime,
                                title := title, last_changed := last_changed,
                                alt_title := alt_title },
                      metadaten := .dict entries,
                      norms := nout.norms }
                  if key_process ≠ "" then
                    ({ st2 with all_laws := dinsert st2.all_laws (.str key_process) record },
                     .ok (.written key_process record nout.unresolved))
                  else (st2, .ok .skippedNoKey)
          | _ =>
            -- a non-string, non-list survivor of the while loop (a dict)
            -- raises TypeError inside remove_year_from_key; a list is
            -- impossible there but would raise on the `in` test
            (st, .error .typeError)
    | _ => (st, .error .attributeError)  -- output['metadaten'].get on a non-dict

/-- Sequential processing of a batch of documents against one shared
registry, in list order.  (The source hands documents to a
multiprocessing pool; the spec's concurrency contract makes the
registry a single mutual-exclusion domain, so the observable
cross-document behaviour is a sequential interleaving, which the batch
order parameter ranges over.) -/
def processBatch (tok : String → Nat) (st : RegState) :
    List Doc → RegState × List (Except PyErr FileResult)
  | [] => (st, [])
  | d :: ds =>
    let (st1, r) := process_file tok st d
    let (st2, rs) := processBatch tok st1 ds
    (st2, r :: rs)

/-! ### Derived per-document notions used in the statements -/

/-- `soup.metadaten`: the first `metadaten` tag of the document. -/
def lawMetaNode (d : Doc) : Option XNode :=
  findTag "metadaten" d.tree

/-- The converted law-level metadata, when it is a dict. -/
def lawEntriesOf (d : Doc) : Option (List (String × PyVal)) :=
  match lawMetaNode d with
  | some m =>
    match convertX m with
    | .dict es => some es
    | _ => none
  | none => none

/-- The candidate identifier when it is directly a scalar string:
`jurabk` if present, else `amtabk`. -/
def scalarKeyOf (d : Doc) : Option String :=
  match lawEntriesOf d with
  | some es =>
    match (match dlookup es "jurabk" with
           | some v => some v
           | none => dlookup es "amtabk") with
    | some (.str s) => some s
    | _ => none
  | none => none

/-- The unstripped candidate key of a document (empty when there is
no scalar candidate). -/
def plannedStr (d : Doc) : String :=
  (scalarKeyOf d).getD ""

/-- The year-stripped working key of a document. -/
def strippedStr (d : Doc) : String :=
  remove_year_from_key (plannedStr d)

/-- Whether an `Except` value is a success. -/
def exceptOk {α : Type} : Except PyErr α → Bool
  | .ok _ => true
  | .error _ => false

/-- Error-freedom of `processNormNode` on one norm node: the checks
mirror exactly the error branches of `processNormNode`, none of which
involves the token counter, the filename, the working key or the
previously emitted norms. -/
def normNodeOk (law : XNode) : Bool :=
  match findTag "metadaten" law with
  | none => false
  | some metaNode =>
    match convertX metaNode with
    | .dict entries =>
      match dlookup entries "enbez" with
      | some v =>
        if pyTruthy v then
          match v with
          | .str enbez =>
            if matchNormPattern enbez then
              match dlookup entries "gliederungseinheit" with
              | some g =>
                if pyTruthy g then
                  match g with
                  | .dict ge =>
                    match dlookup ge "gliederungsbez" with
                    | some b =>
                      if pyTruthy b then
                        match b with
                        | .str _ => true
                        | _ => false
                      else true
                    | none => true
                  | _ => false
                else true
              | none => true
            else true
          | _ => false
        else true
      | none => true
    | _ => true

/-- Error-freedom of norm extraction for a whole document. -/
def normsOkDoc (d : Doc) : Bool :=
  (findAllTag "norm" d.tree).all normNodeOk

/-- A document that `process_file` handles without raising and with a
usable, non-year-only scalar identifier: its law metadata converts to
a dict, its candidate key is a scalar string whose year-stripped form
is nonempty, the alternate-title computation succeeds, and every norm
node passes `normNodeOk`. -/
def docOk (d : Doc) : Bool :=
  match lawEntriesOf d, scalarKeyOf d with
  | some es, some p =>
    remove_year_from_key p ≠ "" &&
    exceptOk (altTitleStep es p) &&
    normsOkDoc d
  | _, _ => false

/-- The pairwise separation condition of the amended key-uniqueness
claim: two documents neither share the unstripped candidate key nor
has either one's unstripped key equal to the other's stripped key. -/
def keyCond (a b : Doc) : Prop :=
  plannedStr a ≠ plannedStr b ∧
  plannedStr a ≠ strippedStr b ∧
  plannedStr b ≠ strippedStr a

instance (a b : Doc) : Decidable (keyCond a b) := by
  unfold keyCond
  infer_instance

/-- The registry invariant relating the shared state to the documents
processed so far: both dicts have pairwise-distinct keys; `file_keys`
is the source-filename image of `all_laws`; every stored record is
keyed by its document's unstripped or stripped candidate key and
still carries that candidate in its metadata; and the stored records'
source filenames enumerate the processed documents exactly. -/
def RegInv (st : RegState) (processed : List Doc) : Prop :=
  (st.all_laws.map Prod.fst).Nodup ∧
  (st.file_keys.map Prod.fst).Nodup ∧
  (∀ k, dlookup st.file_keys k = (dlookup st.all_laws k).map (fun r => r.meta.source)) ∧
  (∀ p ∈ st.all_laws, ∃ d ∈ processed,
     p.2.meta.source = d.filename ∧
     (match p.2.metadaten with
      | .dict es =>
        (match dlookup es "jurabk" with
         | some v => some v
         | none => dlookup es "amtabk") = some (.str (plannedStr d))
      | _ => False) ∧
     (p.1 = DKey.str (plannedStr d) ∨ p.1 = DKey.str (strippedStr d))) ∧
  (st.all_laws.map (fun p => p.2.meta.source)).Perm
    (processed.map (fun d => d.filename))

/-! ### The year-stripping rule as the specification words it

For the refinement comparison of claim C7 only: strip exactly when
the candidate HAS four last characters and they are all digits. -/

/-- Claim C7's reading of year stripping: remove the last four
characters and trim whitespace exactly when the candidate's last four
characters exist (length at least four) and are all digits; otherwise
leave the candidate unchanged. -/
def remove_year_spec (s : String) : String :=
  if 4 ≤ s.data.length ∧ (s.data.drop (s.data.length - 4)).all Char.isDigit
  then pyStrip ⟨s.data.take (s.data.length - 4)⟩
  else s

/-! ### Concrete documents and norm nodes used as test inputs -/

/-- A concrete token counter used to instantiate the abstract
`tiktoken` parameter in closed statements (the properties below never
depend on the tokenization scheme). -/
def lenTok : String → Nat := String.length

/-- A minimal document tree whose law metadata declares the given
`jurabk` (plus a date field so that the metadata has two children and
is converted to a dict, as for real documents). -/
def docTreeJur (jur : String) : XNode :=
  .elem "dokumente" []
    [.elem "norm" []
      [.elem "metadaten" []
        [.elem "jurabk" [] [.text jur],
         .elem "ausfertigung-datum" [] [.text "2020-01-01"]]]]

/-- Documents "ABC2020" / "ABC2021" of the collision-rename claim. -/
def exDoc2020 : Doc := ⟨"f2020.xml", "2024-01-01", docTreeJur "ABC2020"⟩

/-- See `exDoc2020`. -/
def exDoc2021 : Doc := ⟨"f2021.xml", "2024-01-01", docTreeJur "ABC2021"⟩

/-- Two documents with the identical candidate key "ABC". -/
def exDocA : Doc := ⟨"f1.xml", "2024-01-01", docTreeJur "ABC"⟩

/-- See `exDocA`. -/
def exDocB : Doc := ⟨"f2.xml", "2024-01-01", docTreeJur "ABC"⟩

/-- A document whose metadata has neither `jurabk` nor `amtabk`. -/
def exDocNoKey : Doc :=
  ⟨"f6.xml", "2024-01-01",
   .elem "dokumente" []
     [.elem "norm" []
       [.elem "metadaten" []
         [.elem "enbez" [] [.text "X"], .elem "titel" [] [.text "Y"]]]]⟩

/-- A norm node `§ 1` whose content blocks are the given texts. -/
def normNodeWith (enbez : String) (title : String) (blocks : List String) : XNode :=
  .elem "norm" []
    [.elem "metadaten" []
      [.elem "enbez" [] [.text enbez], .elem "titel" [] [.text title]],
     .elem "textdaten" []
      [.elem "text" []
        [.elem "Content" [] (blocks.map (fun b => .elem "P" [] [.text b]))]]]

/-- A document with one norm whose two content blocks both lead
with "(1)". -/
def treeTwoOnes : XNode :=
  .elem "dokumente" [] [normNodeWith "§ 1" "T" ["(1) A", "(1) B"]]

/-- A document with one norm whose three content blocks all lead
with "(1)". -/
def treeThreeOnes : XNode :=
  .elem "dokumente" [] [normNodeWith "§ 1" "T" ["(1) A", "(1) B", "(1) C"]]

/-- The continuation-merge document of claim C5. -/
def treeContinuation : XNode :=
  .elem "dokumente" []
    [normNodeWith "§ 1" "T"
      ["(1) First.", "Second sentence, no leading number.", "(2) Third."]]

/-- Two separate norm nodes with the same designation `§ 3`, each
with a "(1)" block: the real shape (e.g. `indmeterprobv`) that the
final duplicate check of the source is aimed at. -/
def treeDupNormId : XNode :=
  .elem "dokumente" []
    [normNodeWith "§ 3" "T1" ["(1) x"],
     normNodeWith "§ 3" "T2" ["(1) y"]]

/-- A norm node whose designation is `Inhaltsverzeichnis`. -/
def invNode : XNode := normNodeWith "Inhaltsverzeichnis" "T" []

/-- A whitespace-only content block. -/
def wsBlock : XNode := .elem "P" [] [.text "  "]

/-- The leading number sniffed from a content block: the first
whitespace-separated word of the block's text after removing
DL/Revision/first-column entries, searched for `\b\d+[a-zA-Z]?\b`,
with non-word characters removed — exactly the value the block
processing extracts before the collision rule. -/
def sniffNumberOf (P : XNode) : Option String :=
  match pySplitWs (xtext (stripTags sniffStripPred P)) with
  | [] => none
  | w :: _ => (searchNumber w).map keepWordChars

/-! ### The claims -/

/-- C2.  Collision rename correctness: processing the documents with
primary identifiers "ABC2020" and "ABC2021" (both of which year-strip
to "ABC") in either order yields exactly the two records keyed
"ABC2020" and "ABC2021", in both the output map `all_laws` and the
registry `file_keys`; in each order the document processed first ends
under its renamed full key, so the two never collide on "ABC".  This
holds for every token counter. -/
theorem collision_rename_correct (tok : String → Nat) :
    ((processBatch tok emptyState [exDoc2020, exDoc2021]).1.all_laws.map
        (fun p => (p.1, p.2.meta.source))
      = [(DKey.str "ABC2020", "f2020.xml"), (DKey.str "ABC2021", "f2021.xml")]) ∧
    ((processBatch tok emptyState [exDoc2020, exDoc2021]).1.file_keys
      = [(DKey.str "ABC2020", "f2020.xml"), (DKey.str "ABC2021", "f2021.xml")]) ∧
    ((processBatch tok emptyState [exDoc2021, exDoc2020]).1.all_laws.map
        (fun p => (p.1, p.2.meta.source))
      = [(DKey.str "ABC2021", "f2021.xml"), (DKey.str "ABC2020", "f2020.xml")]) ∧
    ((processBatch tok emptyState [exDoc2021, exDoc2020]).1.file_keys
      = [(DKey.str "ABC2021", "f2021.xml"), (DKey.str "ABC2020", "f2020.xml")]) :=
  ⟨rfl, rfl, rfl, rfl⟩

/-- C3, counterexample.  A norm with two content blocks both leading
with "(1)" does NOT yield one paragraph plus one unresolved entry:
the in-norm collision rule renames the second block to id "2" and
appends it, and the unresolved list stays empty (the final duplicate
check only scans previously emitted norms with the same `norm_id`,
never the norm currently being built). -/
theorem true_duplicate_diversion_cex :
    ((processNorms lenTok "f.xml" "K" treeTwoOnes).toOption.map
       (fun o => (o.norms.map fun n => n.paragraphs.map (fun p => p.paragraph_id),
                  o.unresolved)))
      = some ([["1", "2"]], []) := by
  rfl

/-- C3, amended.  A norm with two content blocks both leading with
"(1)" yields two paragraphs, with ids "1" and "2" (the second renamed
by the numeric-increment collision rule), and no unresolved entry;
the diversion to `unprocessed_absatze` happens instead when a SECOND
norm node with the same `norm_id` repeats a paragraph id already
present in the earlier norm of that name: then the repeated block is
reported (as "filename key norm_id id") and is not appended. -/
theorem true_duplicate_diversion_amended (tok : String → Nat) :
    ((processNorms tok "f.xml" "K" treeTwoOnes).toOption.map
       (fun o => (o.norms.map fun n => n.paragraphs.map (fun p => p.paragraph_id),
                  o.unresolved)))
      = some ([["1", "2"]], []) ∧
    ((processNorms tok "f.xml" "K" treeDupNormId).toOption.map
       (fun o => (o.norms.map fun n => n.paragraphs.map (fun p => p.paragraph_id),
                  o.unresolved)))
      = some ([["1"], []], ["f.xml K § 3 1"]) := by
  exact ⟨by rfl, by rfl⟩

/-- C4, counterexample.  With three blocks all claiming the leading
number "(1)", the single-pass collision rule corrects the third block
to "2" without rechecking, so the norm ends with the duplicate
paragraph ids ["1", "2", "2"]: within-norm paragraph ids are NOT
pairwise distinct for three-way clashes. -/
theorem paragraph_id_unique_cex :
    (((processNorms lenTok "f.xml" "K" treeThreeOnes).toOption.map
       (fun o => o.norms.map fun n => n.paragraphs.map (fun p => p.paragraph_id)))
      = some [["1", "2", "2"]]) ∧
    ¬ (["1", "2", "2"] : List String).Nodup :=
  ⟨by rfl, by decide⟩

/-- C5, counterexample.  In the continuation-merge scenario the
content of paragraph "1" keeps the leading "(1)" marker (and the
merged continuation), so it is not the claimed
"First. Second sentence, no leading number.". -/
theorem continuation_merge_cex :
    (((processNorms lenTok "f.xml" "K" treeContinuation).toOption.map
       (fun o => o.norms.map fun n => n.paragraphs.map (fun p => p.content)))
      = some [["(1) First. Second sentence, no leading number.", "(2) Third."]]) ∧
    "(1) First. Second sentence, no leading number."
      ≠ "First. Second sentence, no leading number." :=
  ⟨by rfl, by decide⟩

/-- C5, amended.  A norm (here `§ 1`) with content blocks
"(1) First.", "Second sentence, no leading number.", "(2) Third."
yields exactly two paragraphs: id "1" with content
"(1) First. Second sentence, no leading number." (the leading number
marker is retained in the content) and id "2" with content
"(2) Third."; for every token counter, the token count of paragraph
"1" is the sum of tokenizing the two source blocks: the un-numbered
middle block is merged into the paragraph whose id equals its
positional counter minus one — here the immediately preceding
paragraph — instead of creating a new one.  The first conjunct states
this over the block state machine with the token counter abstract;
the second grounds it in the full norm extraction with the concrete
counter `lenTok` (the two block token counts are 10 and 35). -/
theorem continuation_merge_amended (tok : String → Nat) :
    ([XNode.elem "P" [] [.text "(1) First."],
      XNode.elem "P" [] [.text "Second sentence, no leading number."],
      XNode.elem "P" [] [.text "(2) Third."]].foldl
       (processP tok "f.xml" "K" [] "§ 1") ⟨0, false, [], []⟩
      = ⟨3, true,
         [⟨"1", tok "(1) First." + tok "Second sentence, no leading number.",
           "(1) First. Second sentence, no leading number."⟩,
          ⟨"2", tok "(2) Third.", "(2) Third."⟩], []⟩) ∧
    processNorms lenTok "f.xml" "K" treeContinuation =
      .ok ⟨[⟨"§ 1", "T",
        [⟨"1", 45, "(1) First. Second sentence, no leading number."⟩,
         ⟨"2", 10, "(2) Third."⟩]⟩], []⟩ := by
  have h1 : processP tok "f.xml" "K" [] "§ 1" ⟨0, false, [], []⟩
      (.elem "P" [] [.text "(1) First."])
      = ⟨1, true, [⟨"1", tok "(1) First.", "(1) First."⟩], []⟩ := by rfl
  have h2 : processP tok "f.xml" "K" [] "§ 1"
      ⟨1, true, [⟨"1", tok "(1) First.", "(1) First."⟩], []⟩
      (.elem "P" [] [.text "Second sentence, no leading number."])
      = ⟨2, true, [⟨"1", tok "(1) First." + tok "Second sentence, no leading number.",
                    "(1) First. Second sentence, no leading number."⟩], []⟩ :=
    Eq.trans
      (by rfl : _ = finishP tok "f.xml" "K" [] "§ 1"
            ⟨1, true, [⟨"1", tok "(1) First.", "(1) First."⟩], []⟩
            (.elem "P" [] [.text "Second sentence, no leading number."])
            2 (.int 1) true true)
      (by rfl)
  have h3 : processP tok "f.xml" "K" [] "§ 1"
      ⟨2, true, [⟨"1", tok "(1) First." + tok "Second sentence, no leading number.",
                  "(1) First. Second sentence, no leading number."⟩], []⟩
      (.elem "P" [] [.text "(2) Third."])
      = ⟨3, true,
         [⟨"1", tok "(1) First." + tok "Second sentence, no leading number.",
           "(1) First. Second sentence, no leading number."⟩,
          ⟨"2", tok "(2) Third.", "(2) Third."⟩], []⟩ :=
    Eq.trans
      (by rfl : _ = finishP tok "f.xml" "K" [] "§ 1"
            ⟨2, true, [⟨"1", tok "(1) First." + tok "Second sentence, no leading number.",
                        "(1) First. Second sentence, no leading number."⟩], []⟩
            (.elem "P" [] [.text "(2) Third."])
            3 (.str "2") false true)
      (by rfl)
  refine ⟨?_, by rfl⟩
  rw [List.foldl_cons, h1, List.foldl_cons, h2, List.foldl_cons, h3, List.foldl_nil]

/-- C6.  A document whose metadata has neither `jurabk` nor `amtabk`
makes `process_file` raise `TypeError` (from `None[-4:]` inside
`remove_year_from_key`) before reaching the fallback that logs
"Could not find amtabk or jurabk": the registries are untouched and
no record is produced, but the exception escapes `process_file`, so
in the batch driver it propagates out of the result loop instead of
being isolated to this document. -/
theorem no_identifier_crash (tok : String → Nat) (st : RegState) :
    process_file tok st exDocNoKey = (st, .error .typeError) :=
  rfl

/-- C7, counterexample.  On the three-character all-digit candidate
"999" the code strips (Python's `"999"[-4:]` is the whole string and
`isdigit`), producing "", while the claim's reading — strip exactly
when the LAST FOUR characters are all digits, unchanged otherwise —
leaves a three-character candidate unchanged. -/
theorem year_strip_cex :
    remove_year_from_key "999" = "" ∧ remove_year_spec "999" = "999" ∧
    remove_year_from_key "999" ≠ remove_year_spec "999" :=
  ⟨rfl, rfl, by decide⟩

/-- C10, counterexample.  A whitespace-only content block does NOT
always create a new paragraph: when a previously emitted norm with the
same `norm_id` already contains the positional id, the block is
diverted to the unresolved report and the paragraph list is left
unchanged. -/
theorem empty_block_positional_cex :
    processP lenTok "f.xml" "K" [⟨"§ 1", "T", [⟨"1", 1, "c"⟩]⟩] "§ 1"
      ⟨0, false, [], []⟩ wsBlock
      = ⟨1, false, [], ["f.xml K § 1 1"]⟩ :=
  rfl

/-- C10, amended.  A content block whose sniffed text (after removing
DL/Revision/first-column entries) splits to nothing — empty or
whitespace-only — always takes the positional branch: it is never
treated as a continuation (even when earlier blocks were numbered,
`p_is_numbered` is left unchanged and nothing is merged), it is never
subjected to the increment/underscore collision rule (its id is the
positional counter `p_i` even if that id already exists in this
norm), and a new paragraph with id `p_i` is appended — unless a
previously emitted norm with the same `norm_id` already holds that
id, in which case the block is diverted to the unresolved report and
no paragraph is created. -/
theorem empty_block_positional_amended (tok : String → Nat)
    (fn key nid : String) (prev : List NormRec) (st : BlockState) (P : XNode)
    (hsplit : pySplitWs (xtext (stripTags sniffStripPred P)) = [])
    (hnodup : prev.filter (fun n => n.norm_id = nid &&
        n.paragraphs.any
          (fun q => q.paragraph_id = PyNum.toStr (.int (st.p_i + 1)))) = []) :
    processP tok fn key prev nid st P =
      { p_i := st.p_i + 1, p_is_numbered := st.p_is_numbered,
        paragraphs := st.paragraphs ++
          [⟨PyNum.toStr (.int (st.p_i + 1)), tok (xtext (stripTags supPred P)),
            pySubWhitespace (xtextStripJoin (stripTags supPred P))⟩],
        unresolved := st.unresolved } := by
  simp only [processP, hsplit, finishP, hnodup, List.isEmpty_nil, if_true,
    List.map_nil, List.append_nil, Bool.false_eq_true, if_false]

/-- Witness for `empty_block_positional_amended`: a whitespace-only
block inside a norm whose earlier blocks were numbered (the state
already holds a paragraph "3" and `p_is_numbered`), with no previously
emitted norm: a new paragraph with the positional id "2" is appended,
nothing is merged, and the numbered flag is unchanged. -/
theorem empty_block_positional_amended_witness :
    processP lenTok "f.xml" "K" [] "§ 9" ⟨1, true, [⟨"3", 5, "c"⟩], []⟩ wsBlock
      = ⟨2, true, [⟨"3", 5, "c"⟩, ⟨"2", 2, ""⟩], []⟩ := by
  have := empty_block_positional_amended lenTok "f.xml" "K" "§ 9" []
    ⟨1, true, [⟨"3", 5, "c"⟩], []⟩ wsBlock (by rfl) (by rfl)
  exact this.trans (by rfl)

/-- C8.  Non-substantive node filtering: for a norm node whose
metadata converts to a dict binding `enbez` to a string `e` and whose
processing raises nothing, a norm is emitted if and only if `e`
matches the section/article pattern `(§+|Art|Artikel)\.?\s*` (an
anchored `re.match`, i.e. a prefix match; an empty `e` is falsy and
is skipped, and indeed never matches the pattern).  In particular a
node whose designation is "Inhaltsverzeichnis" produces no norm —
the witness instantiates exactly that. -/
theorem norm_filter_iff (tok : String → Nat) (fn key : String)
    (prev : List NormRec) (law mnode : XNode)
    (es : List (String × PyVal)) (e : String)
    (hm : findTag "metadaten" law = some mnode)
    (hes : convertX mnode = .dict es)
    (hen : dlookup es "enbez" = some (.str e))
    (hok : normNodeOk law = true) :
    ∃ out, processNormNode tok fn key prev law = .ok out ∧
      (out.1.isSome ↔ matchNormPattern e = true) := by
  unfold normNodeOk at hok
  simp only [hm, hes, hen] at hok
  unfold processNormNode
  simp only [hm, hes, hen]
  by_cases he : e = ""
  · subst he
    have hf : pyTruthy (.str "") = false := rfl
    rw [hf]
    simp only [Bool.false_eq_true, if_false]
    exact ⟨(none, []), rfl, by simp [matchNormPattern]⟩
  · have ht : pyTruthy (.str e) = true := by
      simp [pyTruthy, he]
    rw [ht] at hok ⊢
    simp only [if_true] at hok ⊢
    by_cases hp : matchNormPattern e = true
    · rw [hp] at hok ⊢
      simp only [if_true] at hok ⊢
      -- the gliederung step succeeds, by the same case analysis that
      -- `normNodeOk` encodes
      have hglied : ∃ nid, normIdStep es e = .ok nid := by
        unfold normIdStep
        rcases hg : dlookup es "gliederungseinheit" with _ | g
        · exact ⟨e, rfl⟩
        · simp only [hg] at hok
          by_cases htg : pyTruthy g = true
          · rw [htg] at hok
            simp only [if_true] at hok
            cases g with
            | str s => simp at hok
            | list xs => simp at hok
            | dict ge =>
              simp only [htg, if_true]
              rcases hb : dlookup ge "gliederungsbez" with _ | b
              · exact ⟨e, rfl⟩
              · simp only [hb] at hok
                by_cases htb : pyTruthy b = true
                · simp only [htb, if_true] at hok ⊢
                  cases b with
                  | str bs => exact ⟨bs ++ " " ++ e, rfl⟩
                  | list xs => simp at hok
                  | dict d2 => simp at hok
                · simp only [Bool.not_eq_true] at htb
                  simp only [htb, Bool.false_eq_true, if_false]
                  exact ⟨e, rfl⟩
          · simp only [htg, Bool.false_eq_true, if_false]
            exact ⟨e, rfl⟩
      rcases hglied with ⟨nid, hnid⟩
      rw [hnid]
      exact ⟨_, rfl, by simp [hp]⟩
    · simp only [hp, Bool.false_eq_true, if_false]
      exact ⟨(none, []), rfl, by simp [hp]⟩

/-- Witness for `norm_filter_iff`, at a concrete node whose
designation is "Inhaltsverzeichnis": its processing succeeds and no
norm is emitted, since the designation does not match the pattern. -/
theorem norm_filter_iff_witness :
    ∃ out, processNormNode lenTok "f.xml" "K" [] invNode = .ok out ∧
      (out.1.isSome ↔ matchNormPattern "Inhaltsverzeichnis" = true) :=
  norm_filter_iff lenTok "f.xml" "K" [] invNode
    (.elem "metadaten" []
      [.elem "enbez" [] [.text "Inhaltsverzeichnis"], .elem "titel" [] [.text "T"]])
    [("enbez", .str "Inhaltsverzeichnis"), ("titel", .str "T")]
    "Inhaltsverzeichnis" (by rfl) (by rfl) (by rfl) (by rfl)

/-! ### Dictionary lemmas -/

section DictLemmas

variable {κ : Type} {α : Type} [DecidableEq κ]

theorem dlookup_dinsert_self (m : List (κ × α)) (k : κ) (v : α) :
    dlookup (dinsert m k v) k = some v := by
  induction m with
  | nil => simp [dinsert, dlookup]
  | cons p t ih =>
    by_cases h : p.1 = k
    · simp [dinsert, h, dlookup]
    · simp [dinsert, h, dlookup, ih]

theorem dlookup_dinsert_ne (m : List (κ × α)) (k k' : κ) (v : α) (h : k' ≠ k) :
    dlookup (dinsert m k v) k' = dlookup m k' := by
  have h2 : ¬(k = k') := fun hh => h hh.symm
  induction m with
  | nil => simp [dinsert, dlookup, h2]
  | cons p t ih =>
    by_cases hp : p.1 = k
    · subst hp
      simp [dinsert, dlookup, h2]
    · simp only [dinsert, hp, if_false]
      by_cases hp' : p.1 = k'
      · simp [dlookup, hp']
      · simp [dlookup, hp', ih]

theorem ddelete_eq_filter (m : List (κ × α)) (k : κ) :
    ddelete m k = m.filter (fun p => p.1 ≠ k) := by
  induction m with
  | nil => simp [ddelete]
  | cons p t ih =>
    by_cases h : p.1 = k
    · simp [ddelete, h, ih, List.filter]
    · simp [ddelete, h, ih, List.filter]

theorem dlookup_ddelete_self (m : List (κ × α)) (k : κ) :
    dlookup (ddelete m k) k = none := by
  induction m with
  | nil => simp [ddelete, dlookup]
  | cons p t ih =>
    by_cases h : p.1 = k
    · simp [ddelete, h, ih]
    · simp [ddelete, h, dlookup, ih]

theorem dlookup_ddelete_ne (m : List (κ × α)) (k k' : κ) (h : k' ≠ k) :
    dlookup (ddelete m k) k' = dlookup m k' := by
  induction m with
  | nil => rfl
  | cons p t ih =>
    by_cases hp : p.1 = k
    · have e1 : ddelete (p :: t) k = ddelete t k := by
        simp [ddelete, hp]
      have e2 : dlookup (p :: t) k' = dlookup t k' := by
        have hne : ¬(p.1 = k') := by
          rw [hp]
          exact fun hh => h hh.symm
        simp [dlookup, hne]
      rw [e1, e2, ih]
    · have e1 : ddelete (p :: t) k = p :: ddelete t k := by
        simp [ddelete, hp]
      rw [e1]
      by_cases hp' : p.1 = k'
      · simp [dlookup, hp']
      · simp [dlookup, hp', ih]

theorem dmem_iff_lookup (m : List (κ × α)) (k : κ) :
    dmem m k = true ↔ ∃ v, dlookup m k = some v := by
  unfold dmem
  cases h : dlookup m k <;> simp [Option.isSome]

theorem dinsert_of_not_mem (m : List (κ × α)) (k : κ) (v : α)
    (h : dlookup m k = none) : dinsert m k v = m ++ [(k, v)] := by
  induction m with
  | nil => simp [dinsert]
  | cons p t ih =>
    by_cases hp : p.1 = k
    · rw [dlookup] at h
      simp [hp] at h
    · rw [dlookup] at h
      simp only [hp, if_false] at h
      simp [dinsert, hp, ih h]

theorem mem_ddelete (m : List (κ × α)) (k : κ) (p : κ × α)
    (h : p ∈ ddelete m k) : p ∈ m ∧ ¬(p.1 = k) := by
  rw [ddelete_eq_filter] at h
  rcases List.mem_filter.1 h with ⟨h1, h2⟩
  refine ⟨h1, ?_⟩
  simpa using h2

theorem mem_dinsert (m : List (κ × α)) (k : κ) (v : α) (p : κ × α)
    (h : p ∈ dinsert m k v) : p = (k, v) ∨ p ∈ m := by
  induction m with
  | nil =>
    simp only [dinsert, List.mem_singleton] at h
    exact Or.inl h
  | cons q t ih =>
    by_cases hq : q.1 = k
    · simp only [dinsert, hq, if_true, List.mem_cons] at h
      rcases h with h | h
      · exact Or.inl h
      · exact Or.inr (List.mem_cons_of_mem _ h)
    · simp only [dinsert, hq, if_false, List.mem_cons] at h
      rcases h with h | h
      · exact Or.inr (by rw [h]; exact List.mem_cons_self q t)
      · rcases ih h with h1 | h1
        · exact Or.inl h1
        · exact Or.inr (List.mem_cons_of_mem _ h1)

theorem mem_of_dlookup (m : List (κ × α)) (k : κ) (v : α)
    (h : dlookup m k = some v) : (k, v) ∈ m := by
  induction m with
  | nil => simp [dlookup] at h
  | cons p t ih =>
    rw [dlookup] at h
    by_cases hp : p.1 = k
    · simp only [hp, if_true, Option.some.injEq] at h
      have hpv : p = (k, v) := by
        cases p
        simp only at hp h
        rw [hp, h]
      rw [← hpv]
      exact List.mem_cons_self p t
    · simp only [hp, if_false] at h
      exact List.mem_cons_of_mem _ (ih h)

theorem not_mem_keys_of_lookup_none (m : List (κ × α)) (k : κ)
    (h : dlookup m k = none) : k ∉ m.map Prod.fst := by
  induction m with
  | nil => simp
  | cons p t ih =>
    rw [dlookup] at h
    by_cases hp : p.1 = k
    · simp [hp] at h
    · simp only [hp, if_false] at h
      simp only [List.map_cons, List.mem_cons]
      rintro (hh | hh)
      · exact hp hh.symm
      · exact ih h hh

theorem keys_nodup_ddelete (m : List (κ × α)) (k : κ)
    (h : (m.map Prod.fst).Nodup) : ((ddelete m k).map Prod.fst).Nodup := by
  rw [ddelete_eq_filter]
  induction m with
  | nil => simp
  | cons p t ih =>
    simp only [List.map_cons, List.nodup_cons] at h
    by_cases hp : ¬(p.1 = k)
    · have e1 : List.filter (fun q => decide ¬(q.1 = k)) (p :: t)
          = p :: List.filter (fun q => decide ¬(q.1 = k)) t := by
        simp [List.filter, hp]
      simp only [ne_eq] at e1 ⊢
      rw [e1]
      simp only [List.map_cons, List.nodup_cons]
      constructor
      · intro hc
        rcases List.mem_map.1 hc with ⟨q, hq, hq1⟩
        exact h.1 (List.mem_map.2 ⟨q, List.mem_of_mem_filter hq, hq1⟩)
      · exact ih h.2
    · have e1 : List.filter (fun q => decide ¬(q.1 = k)) (p :: t)
          = List.filter (fun q => decide ¬(q.1 = k)) t := by
        simp [List.filter, hp]
      simp only [ne_eq] at e1 ⊢
      rw [e1]
      exact ih h.2

theorem keys_dinsert_of_mem (m : List (κ × α)) (k : κ) (v w : α)
    (hl : dlookup m k = some w) :
    (dinsert m k v).map Prod.fst = m.map Prod.fst := by
  induction m with
  | nil => simp [dlookup] at hl
  | cons p t ih =>
    by_cases hp : p.1 = k
    · simp [dinsert, hp]
    · rw [dlookup] at hl
      simp only [hp, if_false] at hl
      simp [dinsert, hp, ih hl]

theorem keys_nodup_dinsert (m : List (κ × α)) (k : κ) (v : α)
    (h : (m.map Prod.fst).Nodup) : ((dinsert m k v).map Prod.fst).Nodup := by
  cases hl : dlookup m k with
  | none =>
    rw [dinsert_of_not_mem m k v hl]
    simp only [List.map_append, List.map_cons, List.map_nil]
    rw [List.nodup_append]
    refine ⟨h, List.nodup_singleton _, ?_⟩
    intro a ha hb
    simp only [List.mem_singleton] at hb
    subst hb
    exact not_mem_keys_of_lookup_none m a hl ha
  | some w =>
    rw [keys_dinsert_of_mem m k v w hl]
    exact h

theorem lookup_none_of_not_mem_keys (m : List (κ × α)) (k : κ)
    (h : k ∉ m.map Prod.fst) : dlookup m k = none := by
  induction m with
  | nil => rfl
  | cons p t ih =>
    simp only [List.map_cons, List.mem_cons] at h
    push_neg at h
    rw [dlookup]
    have hp : ¬(p.1 = k) := fun hh => h.1 hh.symm
    simp only [hp, if_false]
    exact ih h.2

theorem ddelete_of_lookup_none (m : List (κ × α)) (k : κ)
    (h : dlookup m k = none) : ddelete m k = m := by
  induction m with
  | nil => rfl
  | cons p t ih =>
    rw [dlookup] at h
    by_cases hp : p.1 = k
    · simp [hp] at h
    · simp only [hp, if_false] at h
      simp [ddelete, hp, ih h]

theorem ddelete_append (a b : List (κ × α)) (k : κ) :
    ddelete (a ++ b) k = ddelete a k ++ ddelete b k := by
  simp [ddelete_eq_filter, List.filter_append]

theorem perm_cons_ddelete (m : List (κ × α)) (k : κ) (v : α)
    (hnd : (m.map Prod.fst).Nodup) (h : dlookup m k = some v) :
    m.Perm ((k, v) :: ddelete m k) := by
  induction m with
  | nil => simp [dlookup] at h
  | cons p t ih =>
    simp only [List.map_cons, List.nodup_cons] at hnd
    rw [dlookup] at h
    by_cases hp : p.1 = k
    · simp only [hp, if_true, Option.some.injEq] at h
      have hpv : p = (k, v) := by
        cases p
        simp only at hp h
        rw [hp, h]
      subst hpv
      have e1 : ddelete ((k, v) :: t) k = ddelete t k := by
        simp [ddelete]
      rw [e1]
      have ht : dlookup t k = none :=
        lookup_none_of_not_mem_keys t k (by
          intro hc
          exact hnd.1 (by simpa using hc))
      rw [ddelete_of_lookup_none t k ht]
    · simp only [hp, if_false] at h
      have e1 : ddelete (p :: t) k = p :: ddelete t k := by
        simp [ddelete, hp]
      rw [e1]
      exact (List.Perm.cons p (ih hnd.2 h)).trans (List.Perm.swap _ _ _)

end DictLemmas

/-! ### Success lemmas for norm extraction -/

theorem processNormNode_ok (tok : String → Nat) (fn key : String)
    (prev : List NormRec) (law : XNode) (hok : normNodeOk law = true) :
    ∃ out, processNormNode tok fn key prev law = .ok out := by
  unfold normNodeOk at hok
  unfold processNormNode
  cases hm : findTag "metadaten" law with
  | none => rw [hm] at hok; simp at hok
  | some mnode =>
    simp only [hm] at hok ⊢
    cases hcv : convertX mnode with
    | str s => exact ⟨(none, []), rfl⟩
    | list xs => exact ⟨(none, []), rfl⟩
    | dict es =>
      simp only [hcv] at hok ⊢
      cases hen : dlookup es "enbez" with
      | none => exact ⟨(none, []), rfl⟩
      | some v =>
        simp only [hen] at hok ⊢
        by_cases ht : pyTruthy v = true
        · simp only [ht, if_true] at hok ⊢
          cases v with
          | list xs => simp at hok
          | dict d2 => simp at hok
          | str e =>
            by_cases hpat : matchNormPattern e = true
            · simp only [hpat, if_true] at hok ⊢
              have hglied : ∃ nid, normIdStep es e = .ok nid := by
                unfold normIdStep
                rcases hg : dlookup es "gliederungseinheit" with _ | g
                · exact ⟨e, rfl⟩
                · simp only [hg] at hok
                  by_cases htg : pyTruthy g = true
                  · simp only [htg, if_true] at hok ⊢
                    cases g with
                    | str s => simp at hok
                    | list xs => simp at hok
                    | dict ge =>
                      rcases hb : dlookup ge "gliederungsbez" with _ | b
                      · exact ⟨e, by simp [hb]⟩
                      · simp only [hb] at hok ⊢
                        by_cases htb : pyTruthy b = true
                        · simp only [htb, if_true] at hok ⊢
                          cases b with
                          | str bs => exact ⟨bs ++ " " ++ e, rfl⟩
                          | list xs => simp at hok
                          | dict d2 => simp at hok
                        · simp only [Bool.not_eq_true] at htb
                          simp only [htb, Bool.false_eq_true, if_false]
                          exact ⟨e, rfl⟩
                  · simp only [Bool.not_eq_true] at htg
                    simp only [htg, Bool.false_eq_true, if_false]
                    exact ⟨e, rfl⟩
              rcases hglied with ⟨nid, hnid⟩
              rw [hnid]
              exact ⟨_, rfl⟩
            · simp only [hpat, Bool.false_eq_true, if_false]
              exact ⟨(none, []), rfl⟩
        · simp only [Bool.not_eq_true] at ht
          simp only [ht, Bool.false_eq_true, if_false]
          exact ⟨(none, []), rfl⟩

theorem processNormList_ok (tok : String → Nat) (fn key : String) :
    ∀ (laws : List XNode) (acc : NormsOut),
      (∀ law ∈ laws, normNodeOk law = true) →
      ∃ out, processNormList tok fn key laws acc = .ok out := by
  intro laws
  induction laws with
  | nil => exact fun acc _ => ⟨acc, rfl⟩
  | cons law rest ih =>
    intro acc hall
    rcases processNormNode_ok tok fn key acc.norms law
      (hall law (List.mem_cons_self law rest)) with ⟨out1, hout1⟩
    rw [processNormList, hout1]
    exact ih _ (fun l hl => hall l (List.mem_cons_of_mem _ hl))

theorem processNorms_ok (tok : String → Nat) (fn key : String) (d : Doc)
    (h : normsOkDoc d = true) :
    ∃ out, processNorms tok fn key d.tree = .ok out := by
  unfold processNorms
  refine processNormList_ok tok fn key _ _ ?_
  intro law hl
  unfold normsOkDoc at h
  exact List.all_eq_true.1 h law hl

/-! ### Characterization of `process_file` on a well-formed document -/

theorem process_file_nocollision (tok : String → Nat) (st : RegState) (d : Doc)
    (es : List (String × PyVal)) (p : String)
    (hes : lawEntriesOf d = some es)
    (hp : scalarKeyOf d = some p)
    (hstrip : remove_year_from_key p ≠ "")
    (halt : exceptOk (altTitleStep es p) = true)
    (hnorms : normsOkDoc d = true)
    (hnc1 : dmem st.file_keys (.str (remove_year_from_key p)) = false)
    (hnc2 : dmem st.file_keys (.str p) = false) :
    ∃ r u,
      process_file tok st d =
        ({ all_laws := dinsert st.all_laws (.str (remove_year_from_key p)) r,
           file_keys := dinsert st.file_keys (.str (remove_year_from_key p)) d.filename },
         .ok (.written (remove_year_from_key p) r u)) ∧
      r.meta.source = d.filename ∧
      r.metadaten = .dict es := by
  unfold lawEntriesOf lawMetaNode at hes
  unfold scalarKeyOf lawEntriesOf lawMetaNode at hp
  cases hm : findTag "metadaten" d.tree with
  | none => rw [hm] at hes; cases hes
  | some mnode =>
    simp only [hm] at hes hp
    cases hcv : convertX mnode with
    | str s => rw [hcv] at hes; cases hes
    | list xs => rw [hcv] at hes; cases hes
    | dict es' =>
      simp only [hcv] at hes hp
      cases hes
      cases hkp : (match dlookup es "jurabk" with
                   | some v => some v
                   | none => dlookup es "amtabk") with
      | none => rw [hkp] at hp; cases hp
      | some kv =>
        rw [hkp] at hp
        cases kv with
        | list xs => cases hp
        | dict d2 => cases hp
        | str s =>
          have hsp : s = p := by simpa using hp
          rw [hsp] at hkp
          rcases processNorms_ok tok d.filename (remove_year_from_key p) d hnorms
            with ⟨nout, hnout⟩
          cases halts : altTitleStep es p with
          | error e0 => rw [halts] at halt; simp [exceptOk] at halt
          | ok alt =>
            refine ⟨{ meta := { source := d.filename, download_date := d.ctime,
                                title := (match findTag "langue" mnode with
                                          | some t => xtext t
                                          | none => ""),
                                last_changed := dlookup es "ausfertigung-datum",
                                alt_title := alt },
                      metadaten := .dict es,
                      norms := nout.norms }, nout.unresolved, ?_, rfl, rfl⟩
            unfold process_file
            simp only [hm, hcv, hkp]
            have hunwrap : unwrapListPy (.str p) = .ok (.str p) := rfl
            have hcoll : (dmem st.file_keys (.str (remove_year_from_key p))
                || dmem st.file_keys (.str p)) = false := by
              rw [hnc1, hnc2]
              rfl
            simp only [hunwrap, hcoll, Bool.false_eq_true, if_false, halts, hnout,
              ne_eq, hstrip, not_false_eq_true, if_true]

theorem process_file_collision (tok : String → Nat) (st : RegState) (d : Doc)
    (es res : List (String × PyVal)) (p q : String) (ry : Record) (fy : String)
    (hes : lawEntriesOf d = some es)
    (hp : scalarKeyOf d = some p)
    (hpne : p ≠ "")
    (halt : exceptOk (altTitleStep es p) = true)
    (hnorms : normsOkDoc d = true)
    (hmem : dmem st.file_keys (.str (remove_year_from_key p)) = true)
    (hlA : dlookup st.all_laws (.str (remove_year_from_key p)) = some ry)
    (hlF : dlookup st.file_keys (.str (remove_year_from_key p)) = some fy)
    (hrymd : ry.metadaten = .dict res)
    (hryk : (match dlookup res "jurabk" with
             | some v => some v
             | none => dlookup res "amtabk") = some (.str q))
    (hqne : q ≠ remove_year_from_key p) :
    ∃ r u,
      process_file tok st d =
        ({ all_laws := dinsert
             (ddelete (dinsert st.all_laws (.str q) ry) (.str (remove_year_from_key p)))
             (.str p) r,
           file_keys := dinsert
             (ddelete (dinsert st.file_keys (.str q) fy) (.str (remove_year_from_key p)))
             (.str p) d.filename },
         .ok (.written p r u)) ∧
      r.meta.source = d.filename ∧
      r.metadaten = .dict es := by
  unfold lawEntriesOf lawMetaNode at hes
  unfold scalarKeyOf lawEntriesOf lawMetaNode at hp
  cases hm : findTag "metadaten" d.tree with
  | none => rw [hm] at hes; cases hes
  | some mnode =>
    simp only [hm] at hes hp
    cases hcv : convertX mnode with
    | str s => rw [hcv] at hes; cases hes
    | list xs => rw [hcv] at hes; cases hes
    | dict es' =>
      simp only [hcv] at hes hp
      cases hes
      cases hkp : (match dlookup es "jurabk" with
                   | some v => some v
                   | none => dlookup es "amtabk") with
      | none => rw [hkp] at hp; cases hp
      | some kv =>
        rw [hkp] at hp
        cases kv with
        | list xs => cases hp
        | dict d2 => cases hp
        | str s =>
          have hsp : s = p := by simpa using hp
          rw [hsp] at hkp
          rcases processNorms_ok tok d.filename p d hnorms with ⟨nout, hnout⟩
          cases halts : altTitleStep es p with
          | error e0 => rw [halts] at halt; simp [exceptOk] at halt
          | ok alt =>
            have hcs : collisionStep st (remove_year_from_key p) p =
                (⟨ddelete (dinsert st.all_laws (.str q) ry) (.str (remove_year_from_key p)),
                  ddelete (dinsert st.file_keys (.str q) fy) (.str (remove_year_from_key p))⟩,
                 .ok p) := by
              unfold collisionStep
              simp only [hlA, hrymd, hryk]
              have hne' : pyNeStr (some (.str q)) (remove_year_from_key p) = true := by
                simp [pyNeStr, hqne]
              simp only [hne', if_true]
              have hdk : asDKey (some (.str q)) = .ok (.str q) := rfl
              simp only [hdk, hlF]
            refine ⟨{ meta := { source := d.filename, download_date := d.ctime,
                                title := (match findTag "langue" mnode with
                                          | some t => xtext t
                                          | none => ""),
                                last_changed := dlookup es "ausfertigung-datum",
                                alt_title := alt },
                      metadaten := .dict es,
                      norms := nout.norms }, nout.unresolved, ?_, rfl, rfl⟩
            unfold process_file
            simp only [hm, hcv, hkp]
            have hunwrap : unwrapListPy (.str p) = .ok (.str p) := rfl
            have hcoll : (dmem st.file_keys (.str (remove_year_from_key p))
                || dmem st.file_keys (.str p)) = true := by
              rw [hmem]
              rfl
            simp only [hunwrap, hcoll, if_true, hcs, halts, hnout,
              ne_eq, hpne, not_false_eq_true]

/-! ### The registry invariant is preserved by each document -/

theorem reginv_fresh_key (st : RegState) (processed : List Doc)
    (hinv : RegInv st processed) (w : String)
    (hw : ∀ y ∈ processed, w ≠ plannedStr y ∧ w ≠ strippedStr y) :
    dlookup st.all_laws (DKey.str w) = none ∧
    dlookup st.file_keys (DKey.str w) = none := by
  obtain ⟨-, -, halign, hchar, -⟩ := hinv
  have hA : dlookup st.all_laws (DKey.str w) = none := by
    cases hl : dlookup st.all_laws (DKey.str w) with
    | none => rfl
    | some r =>
      rcases hchar _ (mem_of_dlookup _ _ _ hl) with ⟨y, hy, -, -, hk | hk⟩
      · exact absurd (by injection hk) (hw y hy).1
      · exact absurd (by injection hk) (hw y hy).2
  refine ⟨hA, ?_⟩
  rw [halign, hA]
  rfl

theorem reginv_source_inj (st : RegState) (processed : List Doc)
    (hinv : RegInv st processed)
    (hfn : (processed.map Doc.filename).Nodup) :
    ∀ p1 ∈ st.all_laws, ∀ p2 ∈ st.all_laws,
      p1.2.meta.source = p2.2.meta.source → p1 = p2 := by
  obtain ⟨-, -, -, -, hperm⟩ := hinv
  have hnd : (st.all_laws.map (fun p => p.2.meta.source)).Nodup :=
    hperm.symm.nodup hfn
  exact fun p1 h1 p2 h2 he => List.inj_on_of_nodup_map hnd h1 h2 he

theorem keyCond_symm : ∀ a b : Doc, keyCond a b → keyCond b a := by
  rintro a b ⟨h1, h2, h3⟩
  exact ⟨fun h => h1 h.symm, h3, h2⟩

theorem process_file_step (tok : String → Nat) (st : RegState) (d : Doc)
    (processed : List Doc)
    (hinv : RegInv st processed)
    (hok : docOk d = true)
    (hpw : ∀ y ∈ processed, keyCond d y)
    (hpairs : processed.Pairwise keyCond)
    (hfn : (processed.map Doc.filename).Nodup) :
    RegInv (process_file tok st d).1 (processed ++ [d]) ∧
    (∃ k r u, (process_file tok st d).2 = .ok (.written k r u)) := by
  unfold docOk at hok
  cases hles : lawEntriesOf d with
  | none => rw [hles] at hok; simp at hok
  | some es =>
    cases hps : scalarKeyOf d with
    | none => simp only [hles, hps] at hok; simp at hok
    | some p =>
      simp only [hles, hps, Bool.and_eq_true] at hok
      obtain ⟨⟨hstrip, halt⟩, hnorms⟩ := hok
      have hstrip' : remove_year_from_key p ≠ "" := by
        simpa using hstrip
      have hplan : plannedStr d = p := by
        simp [plannedStr, hps]
      have hstr : strippedStr d = remove_year_from_key p := by
        simp [strippedStr, hplan]
      have hpne : p ≠ "" := by
        intro h
        exact hstrip' (by rw [h]; rfl)
      have hcand : (match dlookup es "jurabk" with
                    | some v => some v
                    | none => dlookup es "amtabk") = some (.str p) := by
        have hps' := hps
        unfold scalarKeyOf at hps'
        simp only [hles] at hps'
        cases hk2 : (match dlookup es "jurabk" with
                     | some v => some v
                     | none => dlookup es "amtabk") with
        | none =>
          simp only [hk2] at hps'
          exact Option.noConfusion hps'
        | some kv =>
          simp only [hk2] at hps'
          cases kv with
          | list xs => cases hps'
          | dict d2 => cases hps'
          | str s =>
            have hsp2 : s = p := by simpa using hps'
            rw [hsp2]
      obtain ⟨hndA, hndF, halign, hchar, hperm⟩ := hinv
      have hpfresh := reginv_fresh_key st processed
        ⟨hndA, hndF, halign, hchar, hperm⟩ p (fun y hy => by
          have h1 := (hpw y hy).1
          have h2 := (hpw y hy).2.1
          rw [hplan] at h1 h2
          exact ⟨h1, h2⟩)
      by_cases hcoll : dmem st.file_keys (.str (remove_year_from_key p)) = true
      · -- collision on the stripped key
        rcases (dmem_iff_lookup _ _).1 hcoll with ⟨fy, hlF⟩
        have hlA0 : ∃ ry, dlookup st.all_laws (.str (remove_year_from_key p)) = some ry
            ∧ ry.meta.source = fy := by
          have halsp := halign (.str (remove_year_from_key p))
          rw [hlF] at halsp
          cases hA : dlookup st.all_laws (.str (remove_year_from_key p)) with
          | none => rw [hA] at halsp; cases halsp
          | some ry =>
            rw [hA] at halsp
            simp only [Option.map] at halsp
            injection halsp with h2
            exact ⟨ry, rfl, h2.symm⟩
        rcases hlA0 with ⟨ry, hlA, hfy⟩
        rcases hchar _ (mem_of_dlookup _ _ _ hlA) with ⟨y, hy, hysrc, hycand, hykey⟩
        cases hmd2 : ry.metadaten with
        | str s => rw [hmd2] at hycand; cases hycand
        | list xs => rw [hmd2] at hycand; cases hycand
        | dict res =>
          rw [hmd2] at hycand
          have hqne : plannedStr y ≠ remove_year_from_key p := by
            have h3 := (hpw y hy).2.2
            rw [hstr] at h3
            exact h3
          have hqnep : plannedStr y ≠ p := by
            have h1 := (hpw y hy).1
            rw [hplan] at h1
            exact fun h => h1 h.symm
          rcases process_file_collision tok st d es res p (plannedStr y) ry fy
            hles hps hpne halt hnorms hcoll hlA hlF hmd2 hycand hqne
            with ⟨r, u, heq, hsrc, hmdr⟩
          rw [heq]
          have hpsp : p ≠ remove_year_from_key p := by
            intro h
            rw [← h, hpfresh.2] at hlF
            cases hlF
          have hqA : dlookup st.all_laws (.str (plannedStr y)) = none := by
            cases hl2 : dlookup st.all_laws (.str (plannedStr y)) with
            | none => rfl
            | some rz =>
              exfalso
              rcases hchar _ (mem_of_dlookup _ _ _ hl2) with ⟨z, hz, hzsrc, hzcand, hzkey⟩
              by_cases hzy : z = y
              · subst hzy
                have hinj := reginv_source_inj st processed
                  ⟨hndA, hndF, halign, hchar, hperm⟩ hfn
                  (DKey.str (plannedStr z), rz) (mem_of_dlookup _ _ _ hl2)
                  (DKey.str (remove_year_from_key p), ry) (mem_of_dlookup _ _ _ hlA)
                  (by simp only []; rw [hzsrc, hysrc])
                have hfst := congrArg Prod.fst hinj
                simp only [DKey.str.injEq] at hfst
                exact hqne hfst
              · have hsymm : Symmetric keyCond := fun a b h => keyCond_symm a b h
                have hyz : keyCond y z :=
                  (List.Pairwise.forall hsymm hpairs) hy hz (fun h => hzy h.symm)
                rcases hzkey with hk | hk
                · have he2 : plannedStr y = plannedStr z := by injection hk
                  exact hyz.1 he2
                · have he2 : plannedStr y = strippedStr z := by injection hk
                  exact hyz.2.1 he2
          have hqF : dlookup st.file_keys (.str (plannedStr y)) = none := by
            rw [halign, hqA]
            rfl
          have hfymem : fy = ry.meta.source := hfy.symm
          -- abbreviations for the new registries
          constructor
          · -- the invariant for the new state
            refine ⟨?_, ?_, ?_, ?_, ?_⟩
            · exact keys_nodup_dinsert _ _ _
                (keys_nodup_ddelete _ _ (keys_nodup_dinsert _ _ _ hndA))
            · exact keys_nodup_dinsert _ _ _
                (keys_nodup_ddelete _ _ (keys_nodup_dinsert _ _ _ hndF))
            · intro k
              by_cases hk1 : k = DKey.str p
              · subst hk1
                rw [dlookup_dinsert_self, dlookup_dinsert_self]
                simp [hsrc]
              · rw [dlookup_dinsert_ne _ _ _ _ hk1, dlookup_dinsert_ne _ _ _ _ hk1]
                by_cases hk2 : k = DKey.str (remove_year_from_key p)
                · subst hk2
                  rw [dlookup_ddelete_self, dlookup_ddelete_self]
                  rfl
                · rw [dlookup_ddelete_ne _ _ _ hk2, dlookup_ddelete_ne _ _ _ hk2]
                  by_cases hk3 : k = DKey.str (plannedStr y)
                  · subst hk3
                    rw [dlookup_dinsert_self, dlookup_dinsert_self]
                    simp [hfymem]
                  · rw [dlookup_dinsert_ne _ _ _ _ hk3, dlookup_dinsert_ne _ _ _ _ hk3]
                    exact halign k
            · intro pr hpr
              rcases mem_dinsert _ _ _ _ hpr with hpr1 | hpr1
              · subst hpr1
                refine ⟨d, by simp, hsrc, ?_, ?_⟩
                · simp only [hmdr]
                  rw [hplan]
                  exact hcand
                · left
                  rw [hplan]
              · rcases mem_ddelete _ _ _ hpr1 with ⟨hpr2, -⟩
                rcases mem_dinsert _ _ _ _ hpr2 with hpr3 | hpr3
                · subst hpr3
                  refine ⟨y, List.mem_append_left _ hy, hysrc, ?_, Or.inl rfl⟩
                  simp only [hmd2]
                  exact hycand
                · rcases hchar _ hpr3 with ⟨z, hz, h1, h2, h3⟩
                  exact ⟨z, List.mem_append_left _ hz, h1, h2, h3⟩
            · -- the stored sources enumerate processed ++ [d]
              have e1 : dinsert st.all_laws (DKey.str (plannedStr y)) ry
                  = st.all_laws ++ [(DKey.str (plannedStr y), ry)] :=
                dinsert_of_not_mem _ _ _ hqA
              have e2 : ddelete (st.all_laws ++ [(DKey.str (plannedStr y), ry)])
                    (DKey.str (remove_year_from_key p))
                  = ddelete st.all_laws (DKey.str (remove_year_from_key p))
                      ++ [(DKey.str (plannedStr y), ry)] := by
                rw [ddelete_append]
                congr 1
                apply ddelete_of_lookup_none
                have : ¬(DKey.str (plannedStr y) = DKey.str (remove_year_from_key p)) := by
                  simp [hqne]
                simp [dlookup, this]
              have e3 : dlookup (ddelete (dinsert st.all_laws (DKey.str (plannedStr y)) ry)
                    (DKey.str (remove_year_from_key p))) (DKey.str p) = none := by
                rw [dlookup_ddelete_ne _ _ _
                    (by intro h; injection h with h3; exact hpsp h3),
                  dlookup_dinsert_ne _ _ _ _
                    (by intro h; injection h with h3; exact hqnep h3.symm),
                  hpfresh.1]
              rw [dinsert_of_not_mem _ _ _ e3, e1, e2]
              simp only [List.map_append, List.map_cons, List.map_nil]
              have hpermA : st.all_laws.Perm
                  ((DKey.str (remove_year_from_key p), ry)
                    :: ddelete st.all_laws (DKey.str (remove_year_from_key p))) :=
                perm_cons_ddelete _ _ _ hndA hlA
              have hpermsrc :
                  (st.all_laws.map (fun pr => pr.2.meta.source)).Perm
                    (ry.meta.source ::
                      (ddelete st.all_laws (DKey.str (remove_year_from_key p))).map
                        (fun pr => pr.2.meta.source)) := by
                have := hpermA.map (fun pr => pr.2.meta.source)
                simpa using this
              refine ((List.perm_append_singleton _ _).append_right _).trans ?_
              refine (hpermsrc.symm.append_right _).trans ?_
              rw [hsrc]
              exact hperm.append_right _
          · exact ⟨p, r, u, rfl⟩
      · -- no collision
        have hcoll' : dmem st.file_keys (DKey.str (remove_year_from_key p)) = false := by
          simpa using hcoll
        have hncp : dmem st.file_keys (DKey.str p) = false := by
          unfold dmem
          rw [hpfresh.2]
          rfl
        rcases process_file_nocollision tok st d es p hles hps hstrip' halt hnorms
          hcoll' hncp with ⟨r, u, heq, hsrc, hmdr⟩
        rw [heq]
        have hfreshA : dlookup st.all_laws (DKey.str (remove_year_from_key p)) = none := by
          have halsp := halign (DKey.str (remove_year_from_key p))
          unfold dmem at hcoll'
          cases hA : dlookup st.all_laws (DKey.str (remove_year_from_key p)) with
          | none => rfl
          | some w =>
            rw [hA] at halsp
            rw [halsp] at hcoll'
            simp at hcoll'
        constructor
        · refine ⟨?_, ?_, ?_, ?_, ?_⟩
          · exact keys_nodup_dinsert _ _ _ hndA
          · exact keys_nodup_dinsert _ _ _ hndF
          · intro k
            by_cases hk1 : k = DKey.str (remove_year_from_key p)
            · subst hk1
              rw [dlookup_dinsert_self, dlookup_dinsert_self]
              simp [hsrc]
            · rw [dlookup_dinsert_ne _ _ _ _ hk1, dlookup_dinsert_ne _ _ _ _ hk1]
              exact halign k
          · intro pr hpr
            rcases mem_dinsert _ _ _ _ hpr with hpr1 | hpr1
            · subst hpr1
              refine ⟨d, by simp, hsrc, ?_, ?_⟩
              · simp only [hmdr]
                rw [hplan]
                exact hcand
              · right
                rw [hstr]
            · rcases hchar _ hpr1 with ⟨z, hz, h1, h2, h3⟩
              exact ⟨z, List.mem_append_left _ hz, h1, h2, h3⟩
          · rw [dinsert_of_not_mem _ _ _ hfreshA]
            simp only [List.map_append, List.map_cons, List.map_nil]
            rw [hsrc]
            exact hperm.append_right _
        · exact ⟨remove_year_from_key p, r, u, rfl⟩

theorem processBatch_inv (tok : String → Nat) :
    ∀ (docs : List Doc) (st : RegState) (processed : List Doc),
      RegInv st processed →
      (∀ d ∈ docs, docOk d = true) →
      (processed ++ docs).Pairwise keyCond →
      ((processed ++ docs).map Doc.filename).Nodup →
      RegInv (processBatch tok st docs).1 (processed ++ docs) ∧
      ∀ r ∈ (processBatch tok st docs).2, ∃ k rec u, r = .ok (.written k rec u) := by
  intro docs
  induction docs with
  | nil =>
    intro st processed hinv _ _ _
    constructor
    · simpa using hinv
    · intro r hr
      simp [processBatch] at hr
  | cons d rest ih =>
    intro st processed hinv hok hpair hfn
    have hpw : ∀ y ∈ processed, keyCond d y := by
      intro y hy
      have := (List.pairwise_append.1 hpair).2.2 y hy d (List.mem_cons_self d rest)
      exact keyCond_symm y d this
    have hpairs_p : processed.Pairwise keyCond := (List.pairwise_append.1 hpair).1
    have hfn_p : (processed.map Doc.filename).Nodup := by
      rw [List.map_append] at hfn
      exact hfn.of_append_left
    have hstep := process_file_step tok st d processed hinv
      (hok d (List.mem_cons_self d rest)) hpw hpairs_p hfn_p
    have hassoc : processed ++ d :: rest = (processed ++ [d]) ++ rest := by
      simp
    rcases hpf : process_file tok st d with ⟨st1, r1⟩
    rw [hpf] at hstep
    have hrest := ih st1 (processed ++ [d]) hstep.1
      (fun x hx => hok x (List.mem_cons_of_mem _ hx))
      (by rw [← hassoc]; exact hpair)
      (by rw [← hassoc]; exact hfn)
    have hout : processBatch tok st (d :: rest)
        = ((processBatch tok st1 rest).1, r1 :: (processBatch tok st1 rest).2) := by
      rw [processBatch, hpf]
    rw [hout, hassoc]
    refine ⟨by simpa using hrest.1, ?_⟩
    intro r hr
    rcases List.mem_cons.1 hr with hr1 | hr1
    · subst hr1
      rcases hstep.2 with ⟨k, rec, u, hk⟩
      exact ⟨k, rec, u, by simpa using hk⟩
    · exact hrest.2 r hr1

/-- C1, amended.  Key uniqueness for a well-separated batch: for every
batch of documents, in any order, in which (i) every document parses
without raising and has a scalar candidate identifier whose
year-stripped form is nonempty, (ii) the unstripped candidate
identifiers are pairwise distinct AND no document's unstripped
identifier equals another document's year-stripped identifier, and
(iii) filenames are distinct, after the full batch completes: the
`file_keys` registry and the `all_laws` output map have pairwise
distinct keys, the registry maps each key to exactly the source
filename of the record stored under that key, the stored records'
sources enumerate the batch's documents exactly once each (so every
document ends with exactly one record under exactly one final key,
and no two documents end with the same final key), and every document
was written successfully. -/
theorem batch_key_uniqueness_amended (tok : String → Nat) (docs : List Doc)
    (hok : ∀ d ∈ docs, docOk d = true)
    (hpair : docs.Pairwise keyCond)
    (hfn : (docs.map Doc.filename).Nodup) :
    ((processBatch tok emptyState docs).1.all_laws.map Prod.fst).Nodup ∧
    ((processBatch tok emptyState docs).1.file_keys.map Prod.fst).Nodup ∧
    (∀ k, dlookup (processBatch tok emptyState docs).1.file_keys k
      = (dlookup (processBatch tok emptyState docs).1.all_laws k).map
          (fun r => r.meta.source)) ∧
    ((processBatch tok emptyState docs).1.all_laws.map
        (fun p => p.2.meta.source)).Perm (docs.map Doc.filename) ∧
    (∀ r ∈ (processBatch tok emptyState docs).2,
      ∃ k rec u, r = .ok (.written k rec u)) := by
  have h0 : RegInv emptyState [] := by
    refine ⟨by simp [emptyState], by simp [emptyState], fun k => rfl, ?_, by
      simp [emptyState]⟩
    intro p hp
    simp [emptyState] at hp
  have hmain := processBatch_inv tok docs emptyState [] h0 hok
    (by simpa using hpair) (by simpa using hfn)
  simp only [List.nil_append] at hmain
  obtain ⟨⟨h1, h2, h3, -, h5⟩, hres⟩ := hmain
  exact ⟨h1, h2, h3, h5, hres⟩

/-- Witness for `batch_key_uniqueness_amended`, at the concrete
two-document batch "ABC2020"/"ABC2021": both documents are written,
the final keys are pairwise distinct, and the two records' sources
enumerate the two documents. -/
theorem batch_key_uniqueness_amended_witness :
    ((processBatch lenTok emptyState [exDoc2020, exDoc2021]).1.all_laws.map
        Prod.fst).Nodup ∧
    ((processBatch lenTok emptyState [exDoc2020, exDoc2021]).1.file_keys.map
        Prod.fst).Nodup ∧
    (∀ k, dlookup (processBatch lenTok emptyState [exDoc2020, exDoc2021]).1.file_keys k
      = (dlookup (processBatch lenTok emptyState [exDoc2020, exDoc2021]).1.all_laws k).map
          (fun r => r.meta.source)) ∧
    ((processBatch lenTok emptyState [exDoc2020, exDoc2021]).1.all_laws.map
        (fun p => p.2.meta.source)).Perm
      ([exDoc2020, exDoc2021].map Doc.filename) ∧
    (∀ r ∈ (processBatch lenTok emptyState [exDoc2020, exDoc2021]).2,
      ∃ k rec u, r = .ok (.written k rec u)) :=
  batch_key_uniqueness_amended lenTok [exDoc2020, exDoc2021]
    (by decide) (by decide) (by decide)

/-- C1, counterexample.  Two documents with the identical candidate
identifier "ABC" both complete successfully with the final key "ABC",
but the final output map holds only ONE record (the second overwrote
the first, whose record is lost): the stored sources are not a
permutation of the two documents, so it is false that after the batch
every registered key maps to exactly one document's record with no
two documents ending on the same final key. -/
theorem batch_key_uniqueness_cex :
    ((processBatch lenTok emptyState [exDocA, exDocB]).2.map (fun r =>
        match r with
        | .ok (.written k _ _) => some k
        | _ => none) = [some "ABC", some "ABC"]) ∧
    ((processBatch lenTok emptyState [exDocA, exDocB]).1.all_laws.map
        (fun p => (p.1, p.2.meta.source)) = [(DKey.str "ABC", "f2.xml")]) ∧
    ¬ (["f2.xml"] : List String).Perm (["f1.xml", "f2.xml"]) := by
  refine ⟨by rfl, by rfl, ?_⟩
  intro h
  have := h.length_eq
  simp at this

/-! ### Distinct leading numbers give distinct paragraph ids -/

theorem fixDuplicateNumber_of_not_mem (ps : List Para) (n : String)
    (h : ∀ q ∈ ps, q.paragraph_id ≠ n) :
    fixDuplicateNumber ps (.str n) = .str n := by
  induction ps with
  | nil => rfl
  | cons p rest ih =>
    have hp : ¬(p.paragraph_id = n) := h p (List.mem_cons_self p rest)
    simp only [fixDuplicateNumber, PyNum.toStr]
    rw [if_neg hp]
    exact ih (fun q hq => h q (List.mem_cons_of_mem _ hq))

theorem processP_numbered (tok : String → Nat) (fn key nid : String)
    (prev : List NormRec) (st : BlockState) (P : XNode) (n : String)
    (hsn : sniffNumberOf P = some n)
    (hfresh : ∀ q ∈ st.paragraphs, q.paragraph_id ≠ n) :
    ((processP tok fn key prev nid st P).paragraphs.map (fun q => q.paragraph_id)
        = st.paragraphs.map (fun q => q.paragraph_id) ++ [n]) ∨
    ((processP tok fn key prev nid st P).paragraphs.map (fun q => q.paragraph_id)
        = st.paragraphs.map (fun q => q.paragraph_id)) := by
  unfold sniffNumberOf at hsn
  cases hsp : pySplitWs (xtext (stripTags sniffStripPred P)) with
  | nil => rw [hsp] at hsn; cases hsn
  | cons w ws =>
    simp only [hsp] at hsn
    cases hsearch : searchNumber w with
    | none => rw [hsearch] at hsn; cases hsn
    | some m =>
      rw [hsearch] at hsn
      simp only [Option.map] at hsn
      have hkeep : keepWordChars m = n := by
        injection hsn
      unfold processP
      simp only [hsp, hsearch, hkeep,
        fixDuplicateNumber_of_not_mem st.paragraphs n hfresh]
      unfold finishP
      simp only [Bool.false_eq_true, if_false, PyNum.toStr]
      by_cases hdup : (prev.filter (fun nr =>
          nr.norm_id = nid && nr.paragraphs.any (fun q => q.paragraph_id = n))).isEmpty
      · left
        simp [hdup]
      · right
        simp only [Bool.not_eq_true] at hdup
        simp [hdup]

theorem processP_fold_sublist (tok : String → Nat) (fn key nid : String)
    (prev : List NormRec) :
    ∀ (Ps : List XNode) (ns seen : List String) (st : BlockState),
      Ps.map sniffNumberOf = ns.map some →
      ((st.paragraphs.map (fun q => q.paragraph_id)).Sublist seen) →
      (seen ++ ns).Nodup →
      (((Ps.foldl (processP tok fn key prev nid) st).paragraphs.map
          (fun q => q.paragraph_id)).Sublist (seen ++ ns)) := by
  intro Ps
  induction Ps with
  | nil =>
    intro ns seen st hmap hsub hnd
    cases ns with
    | nil => simpa using hsub.trans (List.sublist_append_left seen [])
    | cons n rest => cases hmap
  | cons P Pr ih =>
    intro ns seen st hmap hsub hnd
    cases ns with
    | nil => cases hmap
    | cons n rest =>
      simp only [List.map_cons, List.cons.injEq] at hmap
      obtain ⟨hPn, hrest⟩ := hmap
      have hnotseen : n ∉ seen := by
        intro hc
        rcases List.nodup_append.1 hnd with ⟨-, -, hdisj⟩
        exact hdisj hc (List.mem_cons_self n rest)
      have hfresh : ∀ q ∈ st.paragraphs, q.paragraph_id ≠ n := by
        intro q hq hqn
        apply hnotseen
        apply hsub.mem
        rw [← hqn]
        exact List.mem_map.2 ⟨q, hq, rfl⟩
      have hstep := processP_numbered tok fn key nid prev st P n hPn hfresh
      have hassoc : seen ++ n :: rest = (seen ++ [n]) ++ rest := by
        simp
      rw [hassoc]
      rw [List.foldl_cons]
      rcases hstep with hids | hids
      · refine ih rest (seen ++ [n]) _ hrest ?_ ?_
        · rw [hids]
          exact hsub.append (List.Sublist.refl [n])
        · rw [← hassoc]
          exact hnd
      · refine ih rest (seen ++ [n]) _ hrest ?_ ?_
        · rw [hids]
          exact hsub.trans (List.sublist_append_left seen [n])
        · rw [← hassoc]
          exact hnd

/-- C4, amended.  Within one norm whose content blocks all carry a
recognized leading number, and whose leading numbers are pairwise
distinct, the paragraph ids after processing are exactly a
subsequence of those numbers (a block can only be dropped by the
cross-norm duplicate diversion, never renamed), and hence pairwise
distinct.  When the same leading number is claimed by three or more
blocks the single-pass increment rule does NOT guarantee this: see
the counterexample, where the ids end as ["1", "2", "2"]. -/
theorem paragraph_id_unique_amended (tok : String → Nat) (fn key nid : String)
    (prev : List NormRec) (Ps : List XNode) (ns : List String)
    (hmap : Ps.map sniffNumberOf = ns.map some)
    (hnd : ns.Nodup) :
    ((Ps.foldl (processP tok fn key prev nid) ⟨0, false, [], []⟩).paragraphs.map
        (fun q => q.paragraph_id)).Nodup := by
  have hsub := processP_fold_sublist tok fn key nid prev Ps ns [] ⟨0, false, [], []⟩
    hmap (by simp) (by simpa using hnd)
  simp only [List.nil_append] at hsub
  exact hnd.sublist hsub

/-- Witness for `paragraph_id_unique_amended`: two blocks with the
distinct leading numbers "(1)" and "(2)" produce the pairwise-distinct
paragraph ids. -/
theorem paragraph_id_unique_amended_witness :
    (([XNode.elem "P" [] [.text "(1) x"],
       XNode.elem "P" [] [.text "(2) y"]].foldl
        (processP lenTok "f.xml" "K" [] "§ 1") ⟨0, false, [], []⟩).paragraphs.map
        (fun q => q.paragraph_id)).Nodup :=
  paragraph_id_unique_amended lenTok "f.xml" "K" "§ 1" []
    [XNode.elem "P" [] [.text "(1) x"], XNode.elem "P" [] [.text "(2) y"]]
    ["1", "2"] (by rfl) (by decide)

/-- A list's `isEmpty` is `false` exactly when the list is nonempty. -/
theorem list_isEmpty_false {α : Type} (l : List α) : l.isEmpty = false ↔ l ≠ [] := by
  cases l <;> simp

/-- `pyIsdigit` unfolded to a proposition: nonempty and all digits. -/
theorem pyIsdigit_iff (s : String) :
    pyIsdigit s = true ↔ s.data ≠ [] ∧ s.data.all Char.isDigit = true := by
  unfold pyIsdigit
  rw [Bool.and_eq_true, Bool.not_eq_true', list_isEmpty_false]

/-- C7, amended.  Candidate-key selection and year stripping, with
Python slice semantics: (i) the year-stripping of the code agrees
with the claim's reading (strip the last four characters and trim
exactly when the candidate has at least four characters and its last
four are all digits, including the exactly-four-digit candidate which
strips to empty) EXCEPT that a one-to-three-character all-digit
candidate is also stripped — to the empty string — because Python's
`s[-4:]` on a short string is the whole string; (ii) a list candidate
is reduced to its first element; (iii) the candidate is `jurabk` when
present, else `amtabk`; and (iv) on an empty registry a parseable
document's working key is exactly the year-stripped scalar candidate. -/
theorem candidate_key_year_strip_amended :
    (∀ s : String,
      remove_year_from_key s =
        if s.data ≠ [] ∧ s.data.length < 4 ∧ s.data.all Char.isDigit then ""
        else remove_year_spec s) ∧
    (∀ (s : String) (vs : List PyVal),
      unwrapListPy (.list (.str s :: vs)) = .ok (.str s)) ∧
    (∀ (d : Doc) (es : List (String × PyVal)) (c : String),
      lawEntriesOf d = some es → dlookup es "jurabk" = some (.str c) →
      scalarKeyOf d = some c) ∧
    (∀ (d : Doc) (es : List (String × PyVal)) (c : String),
      lawEntriesOf d = some es → dlookup es "jurabk" = none →
      dlookup es "amtabk" = some (.str c) →
      scalarKeyOf d = some c) ∧
    (∀ (tok : String → Nat) (d : Doc) (c : String),
      docOk d = true → scalarKeyOf d = some c →
      ∃ r u, (process_file tok emptyState d).2
        = .ok (.written (remove_year_from_key c) r u)) := by
  refine ⟨?_, fun s vs => rfl, ?_, ?_, ?_⟩
  · intro s
    by_cases h4 : 4 ≤ s.data.length
    · have hlt : ¬(s.data ≠ [] ∧ s.data.length < 4 ∧ s.data.all Char.isDigit) := by
        rintro ⟨-, h, -⟩
        omega
      rw [if_neg hlt]
      have hne : (s.data.drop (s.data.length - 4)) ≠ [] := by
        have hlen : (s.data.drop (s.data.length - 4)).length = 4 := by
          rw [List.length_drop]
          omega
        intro he
        rw [he] at hlen
        simp at hlen
      cases hdig : (s.data.drop (s.data.length - 4)).all Char.isDigit with
      | true =>
        have hc : pyIsdigit (pyTail4 s) = true := (pyIsdigit_iff _).2 ⟨hne, hdig⟩
        have hc2 : 4 ≤ s.data.length ∧
            (s.data.drop (s.data.length - 4)).all Char.isDigit := ⟨h4, hdig⟩
        rw [remove_year_from_key, if_pos hc, remove_year_spec, if_pos hc2]
        rfl
      | false =>
        have hc : ¬ pyIsdigit (pyTail4 s) = true := by
          intro h
          have hthis : (s.data.drop (s.data.length - 4)).all Char.isDigit = true :=
            ((pyIsdigit_iff _).1 h).2
          rw [hdig] at hthis
          exact Bool.false_ne_true hthis
        have hc2 : ¬(4 ≤ s.data.length ∧
            (s.data.drop (s.data.length - 4)).all Char.isDigit) := by
          rintro ⟨-, h⟩
          rw [h] at hdig
          exact Bool.true_eq_false.mp hdig
        rw [remove_year_from_key, if_neg hc, remove_year_spec, if_neg hc2]
    · have hlt : s.data.length < 4 := by omega
      have h0 : s.data.length - 4 = 0 := by omega
      have ht : pyTail4 s = s := by
        cases s with
        | mk d =>
          show (⟨List.drop _ d⟩ : String) = ⟨d⟩
          rw [show d.length - 4 = 0 from h0, List.drop_zero]
      have hdt : pyDropTail4 s = ⟨[]⟩ := by
        cases s with
        | mk d =>
          show (⟨List.take _ d⟩ : String) = ⟨[]⟩
          rw [show d.length - 4 = 0 from h0, List.take_zero]
      have hc2 : ¬(4 ≤ s.data.length ∧
          (s.data.drop (s.data.length - 4)).all Char.isDigit) := fun h => h4 h.1
      cases hdig : pyIsdigit s with
      | true =>
        have hc : pyIsdigit (pyTail4 s) = true := by rw [ht]; exact hdig
        obtain ⟨hnil, hall⟩ := (pyIsdigit_iff _).1 hdig
        rw [remove_year_from_key, if_pos hc, if_pos ⟨hnil, hlt, hall⟩, hdt]
        rfl
      | false =>
        have hc : ¬ pyIsdigit (pyTail4 s) = true := by
          rw [ht, hdig]
          exact fun h => Bool.false_ne_true h
        have hcond : ¬(s.data ≠ [] ∧ s.data.length < 4 ∧ s.data.all Char.isDigit) := by
          rintro ⟨hnil, -, hall⟩
          have : pyIsdigit s = true := (pyIsdigit_iff _).2 ⟨hnil, hall⟩
          rw [hdig] at this
          exact Bool.false_ne_true this
        rw [remove_year_from_key, if_neg hc, if_neg hcond, remove_year_spec,
          if_neg hc2]
  · intro d es c hes hj
    simp only [scalarKeyOf, hes, hj]
  · intro d es c hes hj ha
    simp only [scalarKeyOf, hes, hj, ha]
  · intro tok d c hok hc
    unfold docOk at hok
    cases hles : lawEntriesOf d with
    | none => rw [hles] at hok; simp at hok
    | some es =>
      rw [hles, hc] at hok
      simp only [Bool.and_eq_true] at hok
      obtain ⟨⟨hstrip, halt⟩, hnorms⟩ := hok
      have hstrip' : remove_year_from_key c ≠ "" := by
        simpa using hstrip
      rcases process_file_nocollision tok emptyState d es c hles hc hstrip' halt
        hnorms (by rfl) (by rfl) with ⟨r, u, heq, -, -⟩
      exact ⟨r, u, by rw [heq]⟩

/-- Witness for `candidate_key_year_strip_amended`: the candidate
"ABC2020" (four trailing digits) is handled as the characterization
says, and on an empty registry the document carrying that `jurabk`
is written under exactly the year-stripped key "ABC". -/
theorem candidate_key_year_strip_amended_witness :
    (remove_year_from_key "ABC2020" =
      if ("ABC2020" : String).data ≠ [] ∧ ("ABC2020" : String).data.length < 4 ∧
          ("ABC2020" : String).data.all Char.isDigit then ""
      else remove_year_spec "ABC2020") ∧
    ∃ r u, (process_file lenTok emptyState exDoc2020).2
      = .ok (.written (remove_year_from_key "ABC2020") r u) :=
  ⟨candidate_key_year_strip_amended.1 "ABC2020",
   candidate_key_year_strip_amended.2.2.2.2 lenTok exDoc2020 "ABC2020"
     (by decide) (by decide)⟩

/-- C9.  `process_file` is a pure function of its inputs: it performs
no input and output and reads no global mutable state, so two runs
from equal registry states on the same document and token counter
produce equal results — in particular, from the empty registry the
result is determined by the document alone. -/
theorem parser_deterministic (tok : String → Nat) (d : Doc) (s1 s2 : RegState)
    (h1 : s1.all_laws = s2.all_laws) (h2 : s1.file_keys = s2.file_keys) :
    process_file tok s1 d = process_file tok s2 d := by
  cases s1 with
  | mk a1 f1 =>
    cases s2 with
    | mk a2 f2 =>
      simp only at h1 h2
      rw [h1, h2]

/-- Witness for `parser_deterministic`: a freshly constructed empty
registry state and `emptyState` give identical results on a concrete
document. -/
theorem parser_deterministic_witness :
    process_file lenTok (RegState.mk [] []) exDoc2020
      = process_file lenTok emptyState exDoc2020 :=
  parser_deterministic lenTok exDoc2020 (RegState.mk [] []) emptyState rfl rfl
